import Mathlib

/-!
Verification development for the Simple RPC repository (length-prefixed JSON
framing, client-side correlation multiplexer, server-side two-phase dispatcher).

The definitions below are shallow embeddings of the Rust source:
  * `src/src/lib.rs`      — frame codec (`write_frame`, `read_frame`), protocol
    types (`RpcRequest`, `RpcResponse`, `ProtoError`) and the response helpers
    (`resp_ok`, `resp_err`).
  * `src/src/bin/client.rs` — the multiplexed client: pending map, background
    receive loop (`recvStep`, `recvLoop`), and the call wait loop (`waitResult`).
  * `src/src/bin/server.rs` — the per-connection dispatcher, modelled as a
    small-step transition system (`ServerStep`) over `ServerState`.

Bytes are modelled as `Nat` (values < 256 where relevant).  `serde_json::Value`
is modelled by the inductive `Json`; JSON numbers are restricted to integers
(the claims under verification do not depend on floating-point payloads).
`serde_json::to_vec` / `serde_json::from_slice` are modelled by an executable
serializer `ser` and an executable recursive-descent byte parser `parseVal`
(fuel-indexed so that every definition evaluates by `rfl`/`decide`).
-/

/-- Model of `serde_json::Value` (numbers restricted to integers). -/
inductive Json : Type where
  | null : Json
  | bool (b : Bool) : Json
  | num (n : Int) : Json
  | str (s : String) : Json
  | arr (elems : List Json) : Json
  | obj (fields : List (String × Json)) : Json

/-- UTF-8 encoding of one scalar value, as in the Rust `String` byte layout. -/
def utf8EncodeChar (c : Char) : List Nat :=
  if c.toNat < 0x80 then [c.toNat]
  else if c.toNat < 0x800 then [0xC0 + c.toNat / 0x40, 0x80 + c.toNat % 0x40]
  else if c.toNat < 0x10000 then
    [0xE0 + c.toNat / 0x1000, 0x80 + c.toNat / 0x40 % 0x40, 0x80 + c.toNat % 0x40]
  else
    [0xF0 + c.toNat / 0x40000, 0x80 + c.toNat / 0x1000 % 0x40, 0x80 + c.toNat / 0x40 % 0x40,
      0x80 + c.toNat % 0x40]

/-- UTF-8 decoding of one scalar value from the head of a byte list,
returning the decoded character and the remaining bytes. -/
def utf8DecodeChar (bs : List Nat) : Option (Char × List Nat) :=
  match bs with
  | [] => none
  | b :: rest =>
    if b < 0x80 then some (Char.ofNat b, rest)
    else if b < 0xC2 then none
    else if b < 0xE0 then
      match rest with
      | b1 :: r =>
        if 0x80 ≤ b1 ∧ b1 < 0xC0 then some (Char.ofNat ((b - 0xC0) * 0x40 + (b1 - 0x80)), r)
        else none
      | [] => none
    else if b < 0xF0 then
      match rest with
      | b1 :: b2 :: r =>
        let n := (b - 0xE0) * 0x1000 + (b1 - 0x80) * 0x40 + (b2 - 0x80)
        if (0x80 ≤ b1 ∧ b1 < 0xC0) ∧ (0x80 ≤ b2 ∧ b2 < 0xC0) ∧ 0x800 ≤ n ∧
            (n < 0xD800 ∨ 0xDFFF < n) then
          some (Char.ofNat n, r)
        else none
      | _ => none
    else if b < 0xF5 then
      match rest with
      | b1 :: b2 :: b3 :: r =>
        let n := (b - 0xF0) * 0x40000 + (b1 - 0x80) * 0x1000 + (b2 - 0x80) * 0x40 + (b3 - 0x80)
        if (0x80 ≤ b1 ∧ b1 < 0xC0) ∧ (0x80 ≤ b2 ∧ b2 < 0xC0) ∧ (0x80 ≤ b3 ∧ b3 < 0xC0) ∧
            0x10000 ≤ n ∧ n < 0x110000 then
          some (Char.ofNat n, r)
        else none
      | _ => none
    else none

/-- Hex digit bytes used by the serializer's control-character escapes
(lowercase, as emitted by serde_json). -/
def hexByte (d : Nat) : Nat := if d < 10 then 48 + d else 87 + d

/-- The JSON string escaping performed by serde_json: `"` and backslash get a
two-byte escape, the named control characters get theirs, all other control
characters become a six-byte unicode escape, and everything else is emitted as
raw UTF-8. -/
def escapeChar (c : Char) : List Nat :=
  if c = Char.ofNat 0x22 then [0x5C, 0x22]
  else if c = Char.ofNat 0x5C then [0x5C, 0x5C]
  else if c = Char.ofNat 0x08 then [0x5C, 0x62]
  else if c = Char.ofNat 0x09 then [0x5C, 0x74]
  else if c = Char.ofNat 0x0A then [0x5C, 0x6E]
  else if c = Char.ofNat 0x0C then [0x5C, 0x66]
  else if c = Char.ofNat 0x0D then [0x5C, 0x72]
  else if c.toNat < 0x20 then [0x5C, 0x75, 0x30, 0x30, hexByte (c.toNat / 16), hexByte (c.toNat % 16)]
  else utf8EncodeChar c

/-- Escape a character list into JSON string-body bytes. -/
def escList (cs : List Char) : List Nat :=
  match cs with
  | [] => []
  | c :: rest => escapeChar c ++ escList rest

/-- Serialize a string as a quoted JSON string. -/
def serString (s : String) : List Nat := 0x22 :: (escList s.data ++ [0x22])

/-- Little-endian decimal digits of a natural number (fuel-indexed so that the
definition is kernel-executable; the wrapper passes `n` itself as fuel). -/
def natDigitsRevAux : Nat → Nat → List Nat
  | 0, _ => []
  | fuel + 1, n => if n = 0 then [] else n % 10 :: natDigitsRevAux fuel (n / 10)

/-- Little-endian decimal digits of a natural number (empty for 0). -/
def natDigitsRev (n : Nat) : List Nat := natDigitsRevAux n n

/-- Big-endian ASCII decimal bytes of a positive natural number. -/
def natBytes (n : Nat) : List Nat := (natDigitsRev n).reverse.map (fun d => 48 + d)

/-- Decimal serialization of a natural number. -/
def serNat (n : Nat) : List Nat := if n = 0 then [48] else natBytes n

/-- Decimal serialization of an integer, as serde_json serializes `i64`. -/
def serInt (i : Int) : List Nat :=
  if i < 0 then 0x2D :: serNat i.natAbs else serNat i.toNat

mutual

/-- Model of `serde_json::to_vec` on `Json`: the compact (no-whitespace) JSON
byte serialization. -/
def ser : Json → List Nat
  | .null => [0x6E, 0x75, 0x6C, 0x6C]
  | .bool true => [0x74, 0x72, 0x75, 0x65]
  | .bool false => [0x66, 0x61, 0x6C, 0x73, 0x65]
  | .num i => serInt i
  | .str s => serString s
  | .arr [] => [0x5B, 0x5D]
  | .arr (x :: xs) => 0x5B :: (ser x ++ serElemsTail xs)
  | .obj [] => [0x7B, 0x7D]
  | .obj ((k, v) :: kvs) => 0x7B :: (serString k ++ (0x3A :: (ser v ++ serMembersTail kvs)))

/-- Serialization of the remaining array elements after the first, each
preceded by a comma, ending with the closing bracket. -/
def serElemsTail : List Json → List Nat
  | [] => [0x5D]
  | x :: xs => 0x2C :: (ser x ++ serElemsTail xs)

/-- Serialization of the remaining object members after the first, each
preceded by a comma, ending with the closing brace. -/
def serMembersTail : List (String × Json) → List Nat
  | [] => [0x7D]
  | (k, v) :: kvs => 0x2C :: (serString k ++ (0x3A :: (ser v ++ serMembersTail kvs)))

end

/-- Numeric value of a hex-digit byte, if it is one. -/
def hexVal (b : Nat) : Option Nat :=
  if 0x30 ≤ b ∧ b ≤ 0x39 then some (b - 0x30)
  else if 0x61 ≤ b ∧ b ≤ 0x66 then some (b - 87)
  else if 0x41 ≤ b ∧ b ≤ 0x46 then some (b - 55)
  else none

/-- Prepend a parsed character to a string-body parse result. -/
def consParse (c : Char) (o : Option (List Char × List Nat)) : Option (List Char × List Nat) :=
  match o with
  | some (cs, r) => some (c :: cs, r)
  | none => none

/-- Parse the body of a JSON string after the opening quote, up to and
including the closing quote; fuel-indexed (one unit per consumed character),
`parseStr` supplies the input length as fuel. -/
def parseStrAux : Nat → List Nat → Option (List Char × List Nat)
  | 0, _ => none
  | fuel + 1, bs =>
    match bs with
    | [] => none
    | b :: rest =>
      if b = 0x22 then some ([], rest)
      else if b = 0x5C then
        match rest with
        | [] => none
        | e :: r =>
          if e = 0x22 then consParse (Char.ofNat 0x22) (parseStrAux fuel r)
          else if e = 0x5C then consParse (Char.ofNat 0x5C) (parseStrAux fuel r)
          else if e = 0x2F then consParse (Char.ofNat 0x2F) (parseStrAux fuel r)
          else if e = 0x62 then consParse (Char.ofNat 0x08) (parseStrAux fuel r)
          else if e = 0x74 then consParse (Char.ofNat 0x09) (parseStrAux fuel r)
          else if e = 0x6E then consParse (Char.ofNat 0x0A) (parseStrAux fuel r)
          else if e = 0x66 then consParse (Char.ofNat 0x0C) (parseStrAux fuel r)
          else if e = 0x72 then consParse (Char.ofNat 0x0D) (parseStrAux fuel r)
          else if e = 0x75 then
            match r with
            | h1 :: h2 :: h3 :: h4 :: r2 =>
              match hexVal h1, hexVal h2, hexVal h3, hexVal h4 with
              | some d1, some d2, some d3, some d4 =>
                let n := ((d1 * 16 + d2) * 16 + d3) * 16 + d4
                if n.isValidChar then consParse (Char.ofNat n) (parseStrAux fuel r2) else none
              | _, _, _, _ => none
            | _ => none
          else none
      else if b < 0x20 then none
      else
        match utf8DecodeChar (b :: rest) with
        | some (c, r) => consParse c (parseStrAux fuel r)
        | none => none

/-- Parse a JSON string body (after the opening quote). -/
def parseStr (bs : List Nat) : Option (List Char × List Nat) := parseStrAux bs.length bs

/-- Value of an ASCII decimal digit byte, if it is one. -/
def digitVal (b : Nat) : Option Nat :=
  if 0x30 ≤ b ∧ b ≤ 0x39 then some (b - 0x30) else none

/-- Split off the maximal run of decimal digits. -/
def parseDigits : List Nat → List Nat × List Nat
  | [] => ([], [])
  | b :: r =>
    match digitVal b with
    | some d =>
      let p := parseDigits r
      (d :: p.1, p.2)
    | none => ([], b :: r)

/-- Value of a big-endian digit list. -/
def digitsVal (ds : List Nat) : Nat := ds.foldl (fun a d => a * 10 + d) 0

/-- Parse a nonempty decimal number. -/
def parseNat (bs : List Nat) : Option (Nat × List Nat) :=
  match parseDigits bs with
  | ([], _) => none
  | (ds, r) => some (digitsVal ds, r)

/-- Expect a literal byte sequence, then return the supplied value. -/
def expectLit : List Nat → Json → List Nat → Option (Json × List Nat)
  | [], v, bs => some (v, bs)
  | _ :: _, _, [] => none
  | l :: lit, v, b :: bs => if b = l then expectLit lit v bs else none

mutual

/-- Recursive-descent parser for one compact JSON value; model of the parsing
phase of `serde_json::from_slice`.  Fuel-indexed for execution; `from_slice`
supplies ample fuel. -/
def parseVal : Nat → List Nat → Option (Json × List Nat)
  | 0, _ => none
  | fuel + 1, bs =>
    match bs with
    | [] => none
    | b :: r =>
      if b = 0x6E then expectLit [0x75, 0x6C, 0x6C] Json.null r
      else if b = 0x74 then expectLit [0x72, 0x75, 0x65] (Json.bool true) r
      else if b = 0x66 then expectLit [0x61, 0x6C, 0x73, 0x65] (Json.bool false) r
      else if b = 0x22 then
        match parseStr r with
        | some (cs, r2) => some (Json.str (String.mk cs), r2)
        | none => none
      else if b = 0x5B then
        match parseElems fuel r with
        | some (vs, r2) => some (Json.arr vs, r2)
        | none => none
      else if b = 0x7B then
        match parseMembers fuel r with
        | some (kvs, r2) => some (Json.obj kvs, r2)
        | none => none
      else if b = 0x2D then
        match parseNat r with
        | some (n, r2) => some (Json.num (-(n : Int)), r2)
        | none => none
      else
        match parseNat (b :: r) with
        | some (n, r2) => some (Json.num (n : Int), r2)
        | none => none

/-- Parse the contents of an array after the opening bracket. -/
def parseElems : Nat → List Nat → Option (List Json × List Nat)
  | 0, _ => none
  | fuel + 1, bs =>
    match bs with
    | [] => none
    | b :: r =>
      if b = 0x5D then some ([], r)
      else
        match parseVal fuel (b :: r) with
        | some (v, r2) =>
          match parseElemsTail fuel r2 with
          | some (vs, r3) => some (v :: vs, r3)
          | none => none
        | none => none

/-- Parse the rest of an array after one element: a comma-separated tail
ending with the closing bracket. -/
def parseElemsTail : Nat → List Nat → Option (List Json × List Nat)
  | 0, _ => none
  | fuel + 1, bs =>
    match bs with
    | [] => none
    | b :: r =>
      if b = 0x5D then some ([], r)
      else if b = 0x2C then
        match parseVal fuel r with
        | some (v, r2) =>
          match parseElemsTail fuel r2 with
          | some (vs, r3) => some (v :: vs, r3)
          | none => none
        | none => none
      else none

/-- Parse the contents of an object after the opening brace. -/
def parseMembers : Nat → List Nat → Option (List (String × Json) × List Nat)
  | 0, _ => none
  | fuel + 1, bs =>
    match bs with
    | [] => none
    | b :: r =>
      if b = 0x7D then some ([], r)
      else if b = 0x22 then
        match parseStr r with
        | some (cs, r2) =>
          match r2 with
          | [] => none
          | c :: r3 =>
            if c = 0x3A then
              match parseVal fuel r3 with
              | some (v, r4) =>
                match parseMembersTail fuel r4 with
                | some (kvs, r5) => some ((String.mk cs, v) :: kvs, r5)
                | none => none
              | none => none
            else none
        | none => none
      else none

/-- Parse the rest of an object after one member: a comma-separated tail
ending with the closing brace. -/
def parseMembersTail : Nat → List Nat → Option (List (String × Json) × List Nat)
  | 0, _ => none
  | fuel + 1, bs =>
    match bs with
    | [] => none
    | b :: r =>
      if b = 0x7D then some ([], r)
      else if b = 0x2C then
        match r with
        | [] => none
        | b2 :: r1 =>
          if b2 = 0x22 then
            match parseStr r1 with
            | some (cs, r2) =>
              match r2 with
              | [] => none
              | c :: r3 =>
                if c = 0x3A then
                  match parseVal fuel r3 with
                  | some (v, r4) =>
                    match parseMembersTail fuel r4 with
                    | some (kvs, r5) => some ((String.mk cs, v) :: kvs, r5)
                    | none => none
                  | none => none
                else none
            | none => none
          else none
      else none

end

/-- Model of `serde_json::to_vec`. -/
def to_vec (v : Json) : List Nat := ser v

/-- Model of `serde_json::from_slice::<serde_json::Value>`: parse one value
and require the input to be exactly one serialized document.  The fuel
`2 * bs.length + 2` dominates the parser's needs on every serialized value
(see `parse_ser_master`). -/
def from_slice (bs : List Nat) : Option Json :=
  match parseVal (2 * bs.length + 2) bs with
  | some (v, []) => some v
  | _ => none

/-- Model of `ProtoError` from `src/src/lib.rs` (payloads of the two error
constructors dropped): `Io` wraps the I/O error from a failed `read_exact`,
`Json` wraps the serde_json error. -/
inductive ProtoError : Type where
  | io : ProtoError
  | json : ProtoError
deriving DecidableEq

/-- Big-endian value of a byte list, as `u32::from_be_bytes` on 4 bytes. -/
def beVal (bs : List Nat) : Nat := bs.foldl (fun a b => a * 256 + b) 0

/-- The 4 big-endian bytes of a 32-bit value, as `BytesMut::put_u32`. -/
def u32be (n : Nat) : List Nat :=
  [n / 2 ^ 24 % 256, n / 2 ^ 16 % 256, n / 2 ^ 8 % 256, n % 256]

/-- Model of `write_frame` (src/src/lib.rs lines 43-50): serialize the payload,
prefix the 4-byte big-endian length (`bytes.len() as u32`, a mod-2^32
truncating cast), and emit the frame's bytes. -/
def write_frame (v : Json) : List Nat :=
  u32be ((to_vec v).length % 2 ^ 32) ++ to_vec v

/-- Model of `read_frame` (src/src/lib.rs lines 53-61) on a finite stream:
read exactly 4 length bytes, then exactly that many payload bytes
(`read_exact` failing with an I/O error when the stream is exhausted first),
then deserialize.  Returns the decoded value together with the unconsumed
remainder of the stream. -/
def read_frame (s : List Nat) : Except ProtoError (Json × List Nat) :=
  if 4 ≤ s.length then
    if beVal (s.take 4) ≤ (s.drop 4).length then
      match from_slice ((s.drop 4).take (beVal (s.take 4))) with
      | some v => .ok (v, (s.drop 4).drop (beVal (s.take 4)))
      | none => .error .json
    else .error .io
  else .error .io

example : ser (Json.arr [Json.num 10, Json.null]) =
    [0x5B, 49, 48, 0x2C, 0x6E, 0x75, 0x6C, 0x6C, 0x5D] := rfl
example : read_frame (write_frame (Json.arr [Json.num (-7), Json.str "ab"])) =
    .ok (Json.arr [Json.num (-7), Json.str "ab"], []) := rfl
example : from_slice [0x22, 97] = none := rfl

/-! ### Round-trip lemmas for the serializer and parser -/

theorem utf8DecodeChar_encode (c : Char) (rest : List Nat) :
    utf8DecodeChar (utf8EncodeChar c ++ rest) = some (c, rest) := by
  have hv : c.toNat < 0xD800 ∨ (0xE000 ≤ c.toNat ∧ c.toNat < 0x110000) := by
    have h := c.valid
    unfold UInt32.isValidChar Nat.isValidChar at h
    exact h
  unfold utf8EncodeChar
  by_cases h1 : c.toNat < 0x80
  · simp only [if_pos h1, List.cons_append, List.nil_append]
    simp only [utf8DecodeChar]
    simp only [if_pos h1, Char.ofNat_toNat]
  · by_cases h2 : c.toNat < 0x800
    · simp only [if_neg h1, if_pos h2, List.cons_append, List.nil_append]
      simp only [utf8DecodeChar]
      rw [if_neg (by omega), if_neg (by omega), if_pos (by omega), if_pos (by omega)]
      have harith : (0xC0 + c.toNat / 0x40 - 0xC0) * 0x40 + (0x80 + c.toNat % 0x40 - 0x80)
          = c.toNat := by omega
      rw [harith, Char.ofNat_toNat]
    · by_cases h3 : c.toNat < 0x10000
      · simp only [if_neg h1, if_neg h2, if_pos h3, List.cons_append, List.nil_append]
        simp only [utf8DecodeChar]
        rw [if_neg (by omega), if_neg (by omega), if_neg (by omega), if_pos (by omega)]
        have harith : (0xE0 + c.toNat / 0x1000 - 0xE0) * 0x1000 +
            (0x80 + c.toNat / 0x40 % 0x40 - 0x80) * 0x40 + (0x80 + c.toNat % 0x40 - 0x80)
            = c.toNat := by omega
        rw [harith, if_pos (by refine ⟨by omega, by omega, by omega, by omega⟩), Char.ofNat_toNat]
      · have hlt : c.toNat < 0x110000 := by omega
        simp only [if_neg h1, if_neg h2, if_neg h3, List.cons_append, List.nil_append]
        simp only [utf8DecodeChar]
        rw [if_neg (by omega), if_neg (by omega), if_neg (by omega), if_neg (by omega),
          if_pos (by omega)]
        have harith : (0xF0 + c.toNat / 0x40000 - 0xF0) * 0x40000 +
            (0x80 + c.toNat / 0x1000 % 0x40 - 0x80) * 0x1000 +
            (0x80 + c.toNat / 0x40 % 0x40 - 0x80) * 0x40 + (0x80 + c.toNat % 0x40 - 0x80)
            = c.toNat := by omega
        rw [harith, if_pos (by refine ⟨by omega, by omega, by omega, by omega, by omega⟩),
          Char.ofNat_toNat]

theorem hexVal_hexByte (d : Nat) (hd : d < 16) : hexVal (hexByte d) = some d := by
  unfold hexVal hexByte
  split_ifs <;> first | (simp only [Option.some.injEq]; omega) | omega

theorem utf8EncodeChar_head (c : Char) :
    ∃ b bt, utf8EncodeChar c = b :: bt ∧ (c.toNat < 0x80 → b = c.toNat) ∧
      (0x80 ≤ c.toNat → 0xC0 ≤ b ∧ b < 0xF5) := by
  unfold utf8EncodeChar
  split_ifs with h1 h2 h3
  · exact ⟨_, _, rfl, fun _ => rfl, fun h => by omega⟩
  · exact ⟨_, _, rfl, fun h => by omega, fun _ => by constructor <;> omega⟩
  · exact ⟨_, _, rfl, fun h => by omega, fun _ => by constructor <;> omega⟩
  · have hco : c.toNat = c.val.toNat := rfl
    have hub : c.toNat < 0x110000 := by
      have h := c.valid
      unfold UInt32.isValidChar Nat.isValidChar at h
      omega
    exact ⟨_, _, rfl, fun h => by omega, fun _ => by constructor <;> omega⟩

theorem utf8EncodeChar_length_pos (c : Char) : 1 ≤ (utf8EncodeChar c).length := by
  obtain ⟨b, bt, hbt, -, -⟩ := utf8EncodeChar_head c
  rw [hbt]
  simp

theorem parseStrAux_utf8 (c : Char) (h20 : 0x20 ≤ c.toNat) (hq : c.toNat ≠ 0x22)
    (hbs : c.toNat ≠ 0x5C) (f : Nat) (tail : List Nat) :
    parseStrAux (f + 1) (utf8EncodeChar c ++ tail) = consParse c (parseStrAux f tail) := by
  obtain ⟨b, bt, hbt, hsm, hlg⟩ := utf8EncodeChar_head c
  have hb : ¬ b = 0x22 ∧ ¬ b = 0x5C ∧ ¬ b < 0x20 := by
    by_cases hsmall : c.toNat < 0x80
    · have := hsm hsmall; omega
    · have := hlg (by omega); omega
  rw [hbt, List.cons_append]
  simp only [parseStrAux, if_neg hb.1, if_neg hb.2.1, if_neg hb.2.2]
  rw [show b :: (bt ++ tail) = (b :: bt) ++ tail from rfl, ← hbt, utf8DecodeChar_encode]

theorem char_toNat_ne (c : Char) (m : Nat) (h : ¬ c = Char.ofNat m) : c.toNat ≠ m := by
  intro heq
  exact h (by rw [← heq, Char.ofNat_toNat])

theorem parseStrAux_esc : ∀ (cs : List Char) (fuel : Nat) (rest : List Nat),
    cs.length + 1 ≤ fuel →
    parseStrAux fuel (escList cs ++ (0x22 :: rest)) = some (cs, rest) := by
  intro cs
  induction cs with
  | nil =>
    intro fuel rest hf
    cases fuel with
    | zero => omega
    | succ f => simp [escList, parseStrAux]
  | cons c cs ih =>
    intro fuel rest hf
    cases fuel with
    | zero => simp at hf
    | succ f =>
      have hfuel : cs.length + 1 ≤ f := by
        simp only [List.length_cons] at hf; omega
      have hrec := ih f rest hfuel
      simp only [escList, List.append_assoc]
      by_cases hc1 : c = Char.ofNat 0x22
      · have he : escapeChar c = [0x5C, 0x22] := by rw [hc1]; decide
        rw [he, List.cons_append, List.cons_append, List.nil_append]
        simp only [parseStrAux]
        norm_num
        rw [hrec]
        simp only [consParse, hc1]
      · by_cases hc2 : c = Char.ofNat 0x5C
        · have he : escapeChar c = [0x5C, 0x5C] := by rw [hc2]; decide
          rw [he, List.cons_append, List.cons_append, List.nil_append]
          simp only [parseStrAux]
          norm_num
          rw [hrec]
          simp only [consParse, hc2]
        · by_cases hc3 : c = Char.ofNat 0x08
          · have he : escapeChar c = [0x5C, 0x62] := by rw [hc3]; decide
            rw [he, List.cons_append, List.cons_append, List.nil_append]
            simp only [parseStrAux]
            norm_num
            rw [hrec]
            simp only [consParse, hc3]
          · by_cases hc4 : c = Char.ofNat 0x09
            · have he : escapeChar c = [0x5C, 0x74] := by rw [hc4]; decide
              rw [he, List.cons_append, List.cons_append, List.nil_append]
              simp only [parseStrAux]
              norm_num
              rw [hrec]
              simp only [consParse, hc4]
            · by_cases hc5 : c = Char.ofNat 0x0A
              · have he : escapeChar c = [0x5C, 0x6E] := by rw [hc5]; decide
                rw [he, List.cons_append, List.cons_append, List.nil_append]
                simp only [parseStrAux]
                norm_num
                rw [hrec]
                simp only [consParse, hc5]
              · by_cases hc6 : c = Char.ofNat 0x0C
                · have he : escapeChar c = [0x5C, 0x66] := by rw [hc6]; decide
                  rw [he, List.cons_append, List.cons_append, List.nil_append]
                  simp only [parseStrAux]
                  norm_num
                  rw [hrec]
                  simp only [consParse, hc6]
                · by_cases hc7 : c = Char.ofNat 0x0D
                  · have he : escapeChar c = [0x5C, 0x72] := by rw [hc7]; decide
                    rw [he, List.cons_append, List.cons_append, List.nil_append]
                    simp only [parseStrAux]
                    norm_num
                    rw [hrec]
                    simp only [consParse, hc7]
                  · by_cases hctl : c.toNat < 0x20
                    · have he : escapeChar c =
                          [0x5C, 0x75, 0x30, 0x30, hexByte (c.toNat / 16), hexByte (c.toNat % 16)] := by
                        unfold escapeChar
                        rw [if_neg hc1, if_neg hc2, if_neg hc3, if_neg hc4, if_neg hc5,
                          if_neg hc6, if_neg hc7, if_pos hctl]
                      rw [he]
                      simp only [List.cons_append, List.nil_append]
                      simp only [parseStrAux]
                      norm_num
                      rw [show hexVal 0x30 = some 0 from by decide,
                        hexVal_hexByte _ (by omega), hexVal_hexByte _ (by omega)]
                      show (if (((0 * 16 + 0) * 16 + c.toNat / 16) * 16 + c.toNat % 16).isValidChar
                          then consParse
                            (Char.ofNat (((0 * 16 + 0) * 16 + c.toNat / 16) * 16 + c.toNat % 16))
                            (parseStrAux f (escList cs ++ (0x22 :: rest)))
                          else none) = some (c :: cs, rest)
                      have harith : ((0 * 16 + 0) * 16 + c.toNat / 16) * 16 + c.toNat % 16
                          = c.toNat := by omega
                      rw [harith, if_pos (show c.toNat.isValidChar by
                        unfold Nat.isValidChar; omega), Char.ofNat_toNat]
                      rw [hrec]
                      simp only [consParse]
                    · have hq : c.toNat ≠ 0x22 := char_toNat_ne c 0x22 hc1
                      have hbs : c.toNat ≠ 0x5C := char_toNat_ne c 0x5C hc2
                      have he : escapeChar c = utf8EncodeChar c := by
                        unfold escapeChar
                        rw [if_neg hc1, if_neg hc2, if_neg hc3, if_neg hc4, if_neg hc5,
                          if_neg hc6, if_neg hc7, if_neg hctl]
                      rw [he, parseStrAux_utf8 c (by omega) hq hbs f _, hrec]
                      simp only [consParse]

theorem escapeChar_length_pos (c : Char) : 1 ≤ (escapeChar c).length := by
  unfold escapeChar
  split_ifs <;> first | simp | exact utf8EncodeChar_length_pos c

theorem escList_length_ge (cs : List Char) : cs.length ≤ (escList cs).length := by
  induction cs with
  | nil => simp [escList]
  | cons c cs ih =>
    simp only [escList, List.length_append, List.length_cons]
    have := escapeChar_length_pos c
    omega

theorem parseStr_esc (cs : List Char) (rest : List Nat) :
    parseStr (escList cs ++ (0x22 :: rest)) = some (cs, rest) := by
  unfold parseStr
  have hlen : (escList cs ++ (0x22 :: rest)).length = (escList cs).length + 1 + rest.length := by
    simp only [List.length_append, List.length_cons]
    omega
  rw [hlen]
  have hge := escList_length_ge cs
  have hsucc : (escList cs).length + 1 + rest.length =
      ((escList cs).length + rest.length) + 1 := by omega
  rw [hsucc]
  apply parseStrAux_esc
  omega

theorem natDigitsRevAux_lt (fuel : Nat) : ∀ n, ∀ d ∈ natDigitsRevAux fuel n, d < 10 := by
  induction fuel with
  | zero => intro n d hd; simp [natDigitsRevAux] at hd
  | succ f ih =>
    intro n d hd
    unfold natDigitsRevAux at hd
    by_cases h : n = 0
    · simp [h] at hd
    · rw [if_neg h] at hd
      rcases List.mem_cons.mp hd with h1 | h1
      · omega
      · exact ih _ d h1

theorem natDigitsRevAux_foldl (fuel : Nat) : ∀ n acc, n ≤ fuel →
    (natDigitsRevAux fuel n).reverse.foldl (fun a d => a * 10 + d) acc =
      acc * 10 ^ (natDigitsRevAux fuel n).length + n := by
  induction fuel with
  | zero =>
    intro n acc h
    have hn : n = 0 := by omega
    subst hn
    simp [natDigitsRevAux]
  | succ f ih =>
    intro n acc h
    unfold natDigitsRevAux
    by_cases h0 : n = 0
    · simp [h0]
    · rw [if_neg h0, List.reverse_cons, List.foldl_append,
        ih (n / 10) acc (by omega)]
      simp only [List.foldl_cons, List.foldl_nil, List.length_cons]
      have hp : acc * 10 ^ ((natDigitsRevAux f (n / 10)).length + 1) =
          acc * 10 ^ (natDigitsRevAux f (n / 10)).length * 10 := by ring
      rw [hp]
      omega

theorem natDigitsRev_val (n : Nat) : digitsVal (natDigitsRev n).reverse = n := by
  unfold digitsVal natDigitsRev
  have h := natDigitsRevAux_foldl n n 0 le_rfl
  simpa using h

theorem natDigitsRev_ne_nil (n : Nat) (h : n ≠ 0) : natDigitsRev n ≠ [] := by
  unfold natDigitsRev
  cases n with
  | zero => cases h rfl
  | succ m =>
    unfold natDigitsRevAux
    rw [if_neg h]
    simp

/-- Boundary predicate: the parser may stop a number here (empty input or a
structural delimiter byte). -/
def boundaryB : List Nat → Bool
  | [] => true
  | b :: _ => b == 0x2C || b == 0x5D || b == 0x7D

theorem parseDigits_boundary (r : List Nat) (h : boundaryB r = true) : parseDigits r = ([], r) := by
  cases r with
  | nil => rfl
  | cons b t =>
    simp only [boundaryB, Bool.or_eq_true, beq_iff_eq] at h
    have hd : digitVal b = none := by
      unfold digitVal
      rw [if_neg (by omega)]
    simp [parseDigits, hd]

theorem parseDigits_map (ds : List Nat) (r : List Nat) (hds : ∀ d ∈ ds, d < 10)
    (hr : boundaryB r = true) :
    parseDigits (ds.map (fun d => 48 + d) ++ r) = (ds, r) := by
  induction ds with
  | nil => simpa using parseDigits_boundary r hr
  | cons d ds ih =>
    have hd : d < 10 := hds d (List.mem_cons_self d ds)
    have hdv : digitVal (48 + d) = some d := by
      unfold digitVal
      rw [if_pos (by omega)]
      congr 1
      omega
    have hih := ih (fun x hx => hds x (List.mem_cons_of_mem d hx))
    simp [parseDigits, hdv, hih]

theorem parseNat_serNat (n : Nat) (r : List Nat) (hr : boundaryB r = true) :
    parseNat (serNat n ++ r) = some (n, r) := by
  unfold serNat
  by_cases h0 : n = 0
  · rw [if_pos h0]
    subst h0
    have hdv : digitVal 48 = some 0 := by decide
    simp [parseNat, parseDigits, hdv, parseDigits_boundary r hr, digitsVal]
  · rw [if_neg h0]
    unfold natBytes
    have hmap := parseDigits_map (natDigitsRev n).reverse r
      (fun d hd => natDigitsRevAux_lt n n d (List.mem_reverse.mp hd)) hr
    unfold parseNat
    rw [hmap]
    cases hrev : (natDigitsRev n).reverse with
    | nil =>
      exact absurd (by simpa using congrArg List.reverse hrev) (natDigitsRev_ne_nil n h0)
    | cons d ds =>
      have hval := natDigitsRev_val n
      rw [hrev] at hval
      simp [hval]

theorem serNat_head (n : Nat) : ∃ b t, serNat n = b :: t ∧ 48 ≤ b ∧ b ≤ 57 := by
  unfold serNat
  by_cases h0 : n = 0
  · rw [if_pos h0]
    exact ⟨48, [], rfl, by omega, by omega⟩
  · rw [if_neg h0]
    unfold natBytes
    cases hrev : (natDigitsRev n).reverse with
    | nil =>
      exact absurd (by simpa using congrArg List.reverse hrev) (natDigitsRev_ne_nil n h0)
    | cons d ds =>
      have hd : d < 10 := by
        have hmem : d ∈ (natDigitsRev n).reverse := by rw [hrev]; exact List.mem_cons_self d ds
        exact natDigitsRevAux_lt n n d (List.mem_reverse.mp hmem)
      exact ⟨48 + d, ds.map (fun x => 48 + x), by simp, by omega, by omega⟩

theorem ser_head (d : Json) : ∃ b t, ser d = b :: t ∧ b ≠ 0x5D ∧ b ≠ 0x7D := by
  cases d with
  | null => exact ⟨0x6E, _, rfl, by omega, by omega⟩
  | bool b =>
    cases b with
    | true => exact ⟨0x74, _, rfl, by omega, by omega⟩
    | false => exact ⟨0x66, _, rfl, by omega, by omega⟩
  | num i =>
    by_cases hi : i < 0
    · exact ⟨0x2D, serNat i.natAbs, by simp [ser, serInt, hi], by omega, by omega⟩
    · obtain ⟨b, t, hbt, h1, h2⟩ := serNat_head i.toNat
      exact ⟨b, t, by simp [ser, serInt, hi, hbt], by omega, by omega⟩
  | str s => exact ⟨0x22, _, rfl, by omega, by omega⟩
  | arr xs =>
    cases xs with
    | nil => exact ⟨0x5B, _, rfl, by omega, by omega⟩
    | cons x xs => exact ⟨0x5B, _, rfl, by omega, by omega⟩
  | obj kvs =>
    cases kvs with
    | nil => exact ⟨0x7B, _, rfl, by omega, by omega⟩
    | cons kv kvs =>
      obtain ⟨k, v⟩ := kv
      exact ⟨0x7B, _, rfl, by omega, by omega⟩

theorem ser_length_pos (d : Json) : 1 ≤ (ser d).length := by
  obtain ⟨b, t, hbt, -, -⟩ := ser_head d
  rw [hbt]
  simp

theorem serElemsTail_length_pos (xs : List Json) : 1 ≤ (serElemsTail xs).length := by
  cases xs <;> simp [serElemsTail]

theorem serMembersTail_length_pos (kvs : List (String × Json)) :
    1 ≤ (serMembersTail kvs).length := by
  cases kvs with
  | nil => simp [serMembersTail]
  | cons kv kvs =>
    obtain ⟨k, v⟩ := kv
    simp [serMembersTail]

theorem boundaryB_serElemsTail (xs : List Json) (r : List Nat) :
    boundaryB (serElemsTail xs ++ r) = true := by
  cases xs <;> simp [serElemsTail, boundaryB]

theorem boundaryB_serMembersTail (kvs : List (String × Json)) (r : List Nat) :
    boundaryB (serMembersTail kvs ++ r) = true := by
  cases kvs with
  | nil => simp [serMembersTail, boundaryB]
  | cons kv kvs =>
    obtain ⟨k, v⟩ := kv
    simp [serMembersTail, boundaryB]

theorem parse_ser_master : ∀ N : Nat,
    (∀ d : Json, 2 * (ser d).length ≤ N → ∀ fuel rest, 2 * (ser d).length ≤ fuel →
      boundaryB rest = true → parseVal fuel (ser d ++ rest) = some (d, rest)) ∧
    (∀ xs : List Json, 2 * (serElemsTail xs).length ≤ N → ∀ fuel rest,
      2 * (serElemsTail xs).length ≤ fuel → boundaryB rest = true →
      parseElemsTail fuel (serElemsTail xs ++ rest) = some (xs, rest)) ∧
    (∀ kvs : List (String × Json), 2 * (serMembersTail kvs).length ≤ N → ∀ fuel rest,
      2 * (serMembersTail kvs).length ≤ fuel → boundaryB rest = true →
      parseMembersTail fuel (serMembersTail kvs ++ rest) = some (kvs, rest)) := by
  intro N
  induction N using Nat.strong_induction_on with
  | _ N IH =>
  refine ⟨?_, ?_, ?_⟩
  · intro d hN fuel rest hfuel hrest
    cases d with
    | null =>
      cases fuel with
      | zero => simp [ser] at hfuel
      | succ f => simp [ser, parseVal, expectLit]
    | bool b =>
      cases b with
      | true =>
        cases fuel with
        | zero => simp [ser] at hfuel
        | succ f => simp [ser, parseVal, expectLit]
      | false =>
        cases fuel with
        | zero => simp [ser] at hfuel
        | succ f => simp [ser, parseVal, expectLit]
    | num i =>
      by_cases hi : i < 0
      · have hser : ser (Json.num i) = 0x2D :: serNat i.natAbs := by simp [ser, serInt, hi]
        rw [hser] at hfuel ⊢
        cases fuel with
        | zero => simp at hfuel
        | succ f =>
          rw [List.cons_append]
          simp only [parseVal]
          norm_num
          rw [parseNat_serNat i.natAbs rest hrest]
          show some (Json.num (-(i.natAbs : Int)), rest) = some (Json.num i, rest)
          have hival : -((i.natAbs : Int)) = i := by omega
          rw [hival]
      · obtain ⟨b, t, hbt, hb1, hb2⟩ := serNat_head i.toNat
        have hser : ser (Json.num i) = serNat i.toNat := by simp [ser, serInt, hi]
        rw [hser, hbt] at hfuel ⊢
        cases fuel with
        | zero => simp at hfuel
        | succ f =>
          rw [List.cons_append]
          simp only [parseVal]
          rw [if_neg (by omega), if_neg (by omega), if_neg (by omega), if_neg (by omega),
            if_neg (by omega), if_neg (by omega), if_neg (by omega),
            ← List.cons_append, ← hbt, parseNat_serNat i.toNat rest hrest]
          show some (Json.num ((i.toNat : Int)), rest) = some (Json.num i, rest)
          have hival : ((i.toNat : Int)) = i := by omega
          rw [hival]
    | str s =>
      cases fuel with
      | zero => simp [ser, serString] at hfuel
      | succ f =>
        have hser : ser (Json.str s) ++ rest =
            0x22 :: (escList s.data ++ (0x22 :: rest)) := by
          simp [ser, serString]
        rw [hser]
        simp only [parseVal]
        norm_num
        rw [parseStr_esc]
    | arr xs =>
      cases xs with
      | nil =>
        cases fuel with
        | zero => simp [ser] at hfuel
        | succ f =>
          have hf : 1 ≤ f := by simp [ser] at hfuel; omega
          cases f with
          | zero => omega
          | succ g =>
            have hser : ser (Json.arr []) ++ rest = 0x5B :: (0x5D :: rest) := rfl
            rw [hser]
            simp [parseVal, parseElems]
      | cons x xs =>
        have hlen : (ser (Json.arr (x :: xs))).length =
            1 + (ser x).length + (serElemsTail xs).length := by
          simp [ser]
          omega
        have hA := ser_length_pos x
        have hB := serElemsTail_length_pos xs
        cases fuel with
        | zero => rw [hlen] at hfuel; omega
        | succ f =>
          cases f with
          | zero => rw [hlen] at hfuel; omega
          | succ g =>
            have hax : 2 * (ser x).length < N := by rw [hlen] at hN; omega
            have hbx : 2 * (serElemsTail xs).length < N := by rw [hlen] at hN; omega
            have e1 : parseVal g (ser x ++ (serElemsTail xs ++ rest)) =
                some (x, serElemsTail xs ++ rest) :=
              (IH _ hax).1 x le_rfl g _ (by rw [hlen] at hfuel; omega)
                (boundaryB_serElemsTail xs rest)
            have e2 : parseElemsTail g (serElemsTail xs ++ rest) = some (xs, rest) :=
              (IH _ hbx).2.1 xs le_rfl g rest (by rw [hlen] at hfuel; omega) hrest
            obtain ⟨b, t, hbt, hb1, hb2⟩ := ser_head x
            have hser : ser (Json.arr (x :: xs)) ++ rest =
                0x5B :: (ser x ++ (serElemsTail xs ++ rest)) := by
              simp [ser]
            rw [hser]
            simp only [parseVal]
            norm_num
            rw [hbt, List.cons_append]
            simp only [parseElems, if_neg hb1]
            rw [← List.cons_append, ← hbt]
            simp only [e1, e2]
    | obj kvs =>
      cases kvs with
      | nil =>
        cases fuel with
        | zero => simp [ser] at hfuel
        | succ f =>
          have hf : 1 ≤ f := by simp [ser] at hfuel; omega
          cases f with
          | zero => omega
          | succ g =>
            have hser : ser (Json.obj []) ++ rest = 0x7B :: (0x7D :: rest) := rfl
            rw [hser]
            simp [parseVal, parseMembers]
      | cons kv kvs =>
        obtain ⟨k, v⟩ := kv
        have hlen : (ser (Json.obj ((k, v) :: kvs))).length =
            1 + (serString k).length + 1 + (ser v).length + (serMembersTail kvs).length := by
          simp [ser]
          omega
        have hA := ser_length_pos v
        have hB := serMembersTail_length_pos kvs
        have hK : 2 ≤ (serString k).length := by simp [serString]
        cases fuel with
        | zero => rw [hlen] at hfuel; omega
        | succ f =>
          cases f with
          | zero => rw [hlen] at hfuel; omega
          | succ g =>
            have hax : 2 * (ser v).length < N := by rw [hlen] at hN; omega
            have hbx : 2 * (serMembersTail kvs).length < N := by rw [hlen] at hN; omega
            have e1 : parseVal g (ser v ++ (serMembersTail kvs ++ rest)) =
                some (v, serMembersTail kvs ++ rest) :=
              (IH _ hax).1 v le_rfl g _ (by rw [hlen] at hfuel; omega)
                (boundaryB_serMembersTail kvs rest)
            have e2 : parseMembersTail g (serMembersTail kvs ++ rest) =
                some (kvs, rest) :=
              (IH _ hbx).2.2 kvs le_rfl g rest (by rw [hlen] at hfuel; omega) hrest
            have ek : parseStr (escList k.data ++
                (0x22 :: (0x3A :: (ser v ++ (serMembersTail kvs ++ rest))))) =
                some (k.data, 0x3A :: (ser v ++ (serMembersTail kvs ++ rest))) :=
              parseStr_esc _ _
            have hs : String.mk k.data = k := rfl
            have hser : ser (Json.obj ((k, v) :: kvs)) ++ rest =
                0x7B :: (0x22 :: (escList k.data ++
                  (0x22 :: (0x3A :: (ser v ++ (serMembersTail kvs ++ rest)))))) := by
              simp [ser, serString]
            rw [hser]
            simp only [parseVal]
            norm_num
            simp only [parseMembers]
            norm_num
            simp only [ek, e1, e2, hs]
            norm_num
  · intro xs hN fuel rest hfuel hrest
    cases xs with
    | nil =>
      cases fuel with
      | zero => simp [serElemsTail] at hfuel
      | succ f => simp [serElemsTail, parseElemsTail]
    | cons x xs =>
      have hlen : (serElemsTail (x :: xs)).length =
          1 + (ser x).length + (serElemsTail xs).length := by
        simp [serElemsTail]
        omega
      have hA := ser_length_pos x
      have hB := serElemsTail_length_pos xs
      cases fuel with
      | zero => rw [hlen] at hfuel; omega
      | succ f =>
        have hax : 2 * (ser x).length < N := by rw [hlen] at hN; omega
        have hbx : 2 * (serElemsTail xs).length < N := by rw [hlen] at hN; omega
        have e1 : parseVal f (ser x ++ (serElemsTail xs ++ rest)) =
            some (x, serElemsTail xs ++ rest) :=
          (IH _ hax).1 x le_rfl f _ (by rw [hlen] at hfuel; omega)
            (boundaryB_serElemsTail xs rest)
        have e2 : parseElemsTail f (serElemsTail xs ++ rest) = some (xs, rest) :=
          (IH _ hbx).2.1 xs le_rfl f rest (by rw [hlen] at hfuel; omega) hrest
        have hser : serElemsTail (x :: xs) ++ rest =
            0x2C :: (ser x ++ (serElemsTail xs ++ rest)) := by
          simp [serElemsTail]
        rw [hser]
        simp only [parseElemsTail]
        norm_num
        simp only [e1, e2]
  · intro kvs hN fuel rest hfuel hrest
    cases kvs with
    | nil =>
      cases fuel with
      | zero => simp [serMembersTail] at hfuel
      | succ f => simp [serMembersTail, parseMembersTail]
    | cons kv kvs =>
      obtain ⟨k, v⟩ := kv
      have hlen : (serMembersTail ((k, v) :: kvs)).length =
          1 + (serString k).length + 1 + (ser v).length + (serMembersTail kvs).length := by
        simp [serMembersTail]
        omega
      have hA := ser_length_pos v
      have hB := serMembersTail_length_pos kvs
      have hK : 2 ≤ (serString k).length := by simp [serString]
      cases fuel with
      | zero => rw [hlen] at hfuel; omega
      | succ f =>
        have hax : 2 * (ser v).length < N := by rw [hlen] at hN; omega
        have hbx : 2 * (serMembersTail kvs).length < N := by rw [hlen] at hN; omega
        have e1 : parseVal f (ser v ++ (serMembersTail kvs ++ rest)) =
            some (v, serMembersTail kvs ++ rest) :=
          (IH _ hax).1 v le_rfl f _ (by rw [hlen] at hfuel; omega)
            (boundaryB_serMembersTail kvs rest)
        have e2 : parseMembersTail f (serMembersTail kvs ++ rest) = some (kvs, rest) :=
          (IH _ hbx).2.2 kvs le_rfl f rest (by rw [hlen] at hfuel; omega) hrest
        have ek : parseStr (escList k.data ++
            (0x22 :: (0x3A :: (ser v ++ (serMembersTail kvs ++ rest))))) =
            some (k.data, 0x3A :: (ser v ++ (serMembersTail kvs ++ rest))) :=
          parseStr_esc _ _
        have hs : String.mk k.data = k := rfl
        have hser : serMembersTail ((k, v) :: kvs) ++ rest =
            0x2C :: (0x22 :: (escList k.data ++
              (0x22 :: (0x3A :: (ser v ++ (serMembersTail kvs ++ rest)))))) := by
          simp [serMembersTail, serString]
        rw [hser]
        simp only [parseMembersTail]
        norm_num
        simp only [ek, e1, e2, hs]
        norm_num

theorem from_slice_ser (d : Json) : from_slice (ser d) = some d := by
  unfold from_slice
  have h := (parse_ser_master (2 * (ser d).length)).1 d le_rfl (2 * (ser d).length + 2) []
    (by omega) rfl
  rw [List.append_nil] at h
  rw [h]

theorem beVal_u32be (n : Nat) (h : n < 2 ^ 32) : beVal (u32be n) = n := by
  unfold beVal u32be
  simp only [List.foldl_cons, List.foldl_nil]
  omega

theorem u32be_length (n : Nat) : (u32be n).length = 4 := rfl

/-! ### C1: frame round-trip -/

/-- A document whose serialization is 2^32 + 2 bytes long: the `as u32` cast in
`write_frame` truncates its length prefix. -/
def bigStr : String := String.mk (List.replicate (2 ^ 32) 'a')

/-- The huge counterexample document for the round-trip claims. -/
def bigDoc : Json := Json.str bigStr

theorem escList_replicate (n : Nat) :
    escList (List.replicate n 'a') = List.replicate n 97 := by
  induction n with
  | zero => rfl
  | succ m ih =>
    rw [List.replicate_succ, List.replicate_succ]
    show escapeChar 'a' ++ escList (List.replicate m 'a') = 97 :: List.replicate m 97
    rw [ih, show escapeChar 'a' = [97] from by decide]
    rfl

theorem ser_bigDoc : ser bigDoc = 0x22 :: (List.replicate (2 ^ 32) 97 ++ [0x22]) := by
  show serString bigStr = _
  unfold serString bigStr
  rw [show (String.mk (List.replicate (2 ^ 32) 'a')).data = List.replicate (2 ^ 32) 'a' from rfl,
    escList_replicate]

theorem ser_bigDoc_length : (ser bigDoc).length = 2 ^ 32 + 2 := by
  rw [ser_bigDoc, List.length_cons, List.length_append, List.length_replicate,
    show ([(0x22 : Nat)] : List Nat).length = 1 from rfl]

theorem write_frame_bigDoc : write_frame bigDoc = [0, 0, 0, 2] ++ ser bigDoc := by
  unfold write_frame
  have hlen : (to_vec bigDoc).length = 2 ^ 32 + 2 := ser_bigDoc_length
  rw [show to_vec bigDoc = ser bigDoc from rfl] at hlen ⊢
  rw [hlen, show (2 ^ 32 + 2) % 2 ^ 32 = 2 from by omega,
    show u32be 2 = [0, 0, 0, 2] from by decide]

theorem read_frame_bigFrame : ∀ B : List Nat,
    B = 0x22 :: (List.replicate (2 ^ 32) 97 ++ [0x22]) →
    read_frame ([0, 0, 0, 2] ++ B) = Except.error ProtoError.json := by
  intro B hB
  have hBlen : B.length = 2 ^ 32 + 2 := by
    rw [hB, List.length_cons, List.length_append, List.length_replicate,
      show ([(0x22 : Nat)] : List Nat).length = 1 from rfl]
  have hL : (([0, 0, 0, 2] : List Nat) ++ B).length = 4 + B.length := by
    rw [List.length_append, show ([0, 0, 0, 2] : List Nat).length = 4 from rfl]
  unfold read_frame
  rw [show (([0, 0, 0, 2] : List Nat) ++ B).take 4 = [0, 0, 0, 2] from rfl,
    show (([0, 0, 0, 2] : List Nat) ++ B).drop 4 = B from rfl,
    show beVal [0, 0, 0, 2] = 2 from rfl]
  rw [if_pos (show 4 ≤ (([0, 0, 0, 2] : List Nat) ++ B).length from by omega),
    if_pos (show 2 ≤ B.length from by omega)]
  have htake : B.take 2 = [0x22, 97] := by
    rw [hB, List.take_succ_cons,
      List.take_append_of_le_length (by rw [List.length_replicate]; omega),
      List.take_replicate, show (1 : Nat) ⊓ 2 ^ 32 = 1 from by omega]
    rfl
  rw [htake, show from_slice [0x22, 97] = none from rfl]

/-- C1 counterexample: the round-trip fails on `bigDoc`, whose serialization is
2^32 + 2 bytes: the length prefix wraps to 2, so decoding reads 2 payload bytes
and fails with a JSON error instead of returning `bigDoc`. -/
theorem frame_round_trip_fails_on_huge_document :
    read_frame (write_frame bigDoc) = Except.error ProtoError.json ∧
    read_frame (write_frame bigDoc) ≠ Except.ok (bigDoc, ([] : List Nat)) := by
  have h : read_frame (write_frame bigDoc) = Except.error ProtoError.json := by
    rw [write_frame_bigDoc, read_frame_bigFrame (ser bigDoc) ser_bigDoc]
  exact ⟨h, by rw [h]; exact fun hcon => Except.noConfusion hcon⟩

/-- C1 (amended): for every document whose JSON serialization is shorter than
2^32 bytes, decoding the frame produced by encoding it yields the document
back, consuming the whole frame. -/
theorem frame_round_trip_below_u32_max (d : Json) (h : (to_vec d).length < 2 ^ 32) :
    read_frame (write_frame d) = Except.ok (d, ([] : List Nat)) := by
  unfold write_frame read_frame
  rw [show to_vec d = ser d from rfl] at h ⊢
  rw [Nat.mod_eq_of_lt h]
  have h4 : (u32be (ser d).length).length = 4 := rfl
  rw [show (u32be (ser d).length ++ ser d).take 4 = u32be (ser d).length from by
      rw [← h4, List.take_left],
    show (u32be (ser d).length ++ ser d).drop 4 = ser d from by
      rw [← h4, List.drop_left],
    beVal_u32be _ h]
  rw [if_pos (show 4 ≤ (u32be (ser d).length ++ ser d).length from by
      simp [List.length_append, u32be_length]),
    if_pos le_rfl]
  rw [List.take_length, from_slice_ser d, List.drop_length]

/-- Concrete witness document used by the frame-codec witnesses. -/
def wDoc : Json :=
  Json.arr [Json.num (-5), Json.str "ab", Json.bool true, Json.null,
    Json.obj [("k", Json.num 12)]]

/-- Witness for the amended C1 at a concrete document. -/
theorem frame_round_trip_below_u32_max_witness :
    (to_vec wDoc).length < 2 ^ 32 ∧
    read_frame (write_frame wDoc) = Except.ok (wDoc, ([] : List Nat)) :=
  ⟨by decide, frame_round_trip_below_u32_max wDoc (by decide)⟩

/-! ### C2: frame codec contract -/

/-- C2 (amended): the frame codec contract.  The write side is stated for
payloads serializing below 2^32 bytes (the `as u32` cast truncates larger
lengths, see `write_frame_length_prefix_truncates`); the read side holds for
every stream: exactly 4 length bytes then exactly that many payload bytes are
consumed, ending the stream early is an I/O (truncation) error, an
undeserializable payload is a JSON error, and nothing past the one frame is
consumed. -/
theorem frame_codec_contract :
    (∀ v : Json, (to_vec v).length < 2 ^ 32 →
      write_frame v = u32be (to_vec v).length ++ to_vec v ∧
      (write_frame v).length = 4 + (to_vec v).length ∧
      beVal ((write_frame v).take 4) = (to_vec v).length ∧
      (write_frame v).drop 4 = to_vec v) ∧
    (∀ s : List Nat, s.length < 4 → read_frame s = Except.error ProtoError.io) ∧
    (∀ s : List Nat, 4 ≤ s.length → s.length < 4 + beVal (s.take 4) →
      read_frame s = Except.error ProtoError.io) ∧
    (∀ s : List Nat, 4 ≤ s.length → 4 + beVal (s.take 4) ≤ s.length →
      from_slice ((s.drop 4).take (beVal (s.take 4))) = none →
      read_frame s = Except.error ProtoError.json) ∧
    (∀ s : List Nat, ∀ v : Json, 4 ≤ s.length → 4 + beVal (s.take 4) ≤ s.length →
      from_slice ((s.drop 4).take (beVal (s.take 4))) = some v →
      read_frame s = Except.ok (v, (s.drop 4).drop (beVal (s.take 4)))) := by
  refine ⟨?_, ?_, ?_, ?_, ?_⟩
  · intro v h
    have hw : write_frame v = u32be (to_vec v).length ++ to_vec v := by
      unfold write_frame
      rw [Nat.mod_eq_of_lt h]
    refine ⟨hw, ?_, ?_, ?_⟩
    · rw [hw, List.length_append, u32be_length]
    · rw [hw, show (u32be (to_vec v).length ++ to_vec v).take 4 = u32be (to_vec v).length from by
        rw [← u32be_length (to_vec v).length, List.take_left], beVal_u32be _ h]
    · rw [hw, show (u32be (to_vec v).length ++ to_vec v).drop 4 = to_vec v from by
        rw [← u32be_length (to_vec v).length, List.drop_left]]
  · intro s h
    unfold read_frame
    rw [if_neg (by omega)]
  · intro s h4 hshort
    unfold read_frame
    have hd : (s.drop 4).length = s.length - 4 := by rw [List.length_drop]
    rw [if_pos h4, if_neg (by omega)]
  · intro s h4 hlong hnone
    unfold read_frame
    have hd : (s.drop 4).length = s.length - 4 := by rw [List.length_drop]
    rw [if_pos h4, if_pos (by omega), hnone]
  · intro s v h4 hlong hsome
    unfold read_frame
    have hd : (s.drop 4).length = s.length - 4 := by rw [List.length_drop]
    rw [if_pos h4, if_pos (by omega), hsome]

/-- C2 counterexample: on `bigDoc` the emitted 4-byte prefix decodes to 2, yet
it is followed by 2^32 + 2 payload bytes — not "exactly that many". -/
theorem write_frame_length_prefix_truncates :
    beVal ((write_frame bigDoc).take 4) = 2 ∧
    (write_frame bigDoc).drop 4 = to_vec bigDoc ∧
    ((write_frame bigDoc).drop 4).length = 2 ^ 32 + 2 ∧
    (2 : Nat) ≠ 2 ^ 32 + 2 := by
  have ht : (write_frame bigDoc).take 4 = [0, 0, 0, 2] := by
    rw [write_frame_bigDoc]
    rfl
  have hd : (write_frame bigDoc).drop 4 = ser bigDoc := by
    rw [write_frame_bigDoc]
    rfl
  exact ⟨by rw [ht]; rfl, by rw [hd]; rfl, by rw [hd]; exact ser_bigDoc_length, by omega⟩

/-- Witness for the frame codec contract at small concrete inputs: a frame for
the number 7; a 2-byte stream (truncated header); a stream whose header
announces 5 bytes but carries 1 (truncated payload); a frame with an
undeserializable 1-byte payload; and a 2-byte frame "34" followed by one extra
byte that is left unconsumed. -/
theorem frame_codec_contract_witness :
    ((to_vec (Json.num 7)).length < 2 ^ 32 ∧
      write_frame (Json.num 7) = u32be (to_vec (Json.num 7)).length ++ to_vec (Json.num 7)) ∧
    (([1, 2] : List Nat).length < 4 ∧ read_frame [1, 2] = Except.error ProtoError.io) ∧
    (read_frame [0, 0, 0, 5, 49] = Except.error ProtoError.io) ∧
    (read_frame [0, 0, 0, 1, 44] = Except.error ProtoError.json) ∧
    (read_frame [0, 0, 0, 2, 51, 52, 9] = Except.ok (Json.num 34, [9])) := by
  refine ⟨⟨by decide, (frame_codec_contract.1 (Json.num 7) (by decide)).1⟩,
    ⟨by decide, frame_codec_contract.2.1 [1, 2] (by decide)⟩, ?_, ?_, ?_⟩
  · exact frame_codec_contract.2.2.1 [0, 0, 0, 5, 49] (by decide) (by decide)
  · exact frame_codec_contract.2.2.2.1 [0, 0, 0, 1, 44] (by decide) (by decide) (by rfl)
  · have h := frame_codec_contract.2.2.2.2 [0, 0, 0, 2, 51, 52, 9] (Json.num 34)
      (by decide) (by decide) (by rfl)
    exact h

/-! ### C10: no maximum frame length -/

/-- C10: `read_frame` imposes no maximum frame length.  `ProtoError` has
exactly the I/O and JSON constructors (no `FrameTooLarge`); whenever the
stream carries the announced number of payload bytes the result is never an
I/O error; and for every declared length `n` up to 2^32 - 1, a stream carrying
an `n`-byte payload is read in full and handed to the deserializer, with the
remainder untouched. -/
theorem read_frame_no_max_length :
    (∀ e : ProtoError, e = ProtoError.io ∨ e = ProtoError.json) ∧
    (∀ s : List Nat, 4 ≤ s.length → 4 + beVal (s.take 4) ≤ s.length →
      read_frame s ≠ Except.error ProtoError.io) ∧
    (∀ s : List Nat, 4 ≤ s.length → s.length < 4 + beVal (s.take 4) →
      read_frame s = Except.error ProtoError.io) ∧
    (∀ n : Nat, n < 2 ^ 32 → ∀ payload extra : List Nat, payload.length = n →
      read_frame (u32be n ++ payload ++ extra) =
        match from_slice payload with
        | some v => Except.ok (v, extra)
        | none => Except.error ProtoError.json) := by
  refine ⟨?_, ?_, ?_, ?_⟩
  · intro e
    cases e with
    | io => exact Or.inl rfl
    | json => exact Or.inr rfl
  · intro s h4 hlong
    unfold read_frame
    have hd : (s.drop 4).length = s.length - 4 := by rw [List.length_drop]
    rw [if_pos h4, if_pos (by omega)]
    cases hfs : from_slice ((s.drop 4).take (beVal (s.take 4))) with
    | some v => exact fun hcon => Except.noConfusion hcon
    | none => exact fun hcon => ProtoError.noConfusion (Except.error.inj hcon)
  · intro s h4 hshort
    unfold read_frame
    have hd : (s.drop 4).length = s.length - 4 := by rw [List.length_drop]
    rw [if_pos h4, if_neg (by omega)]
  · intro n hn payload extra hlen
    have hassoc : u32be n ++ payload ++ extra = u32be n ++ (payload ++ extra) := by
      rw [List.append_assoc]
    have ht : (u32be n ++ (payload ++ extra)).take 4 = u32be n := by
      rw [← u32be_length n, List.take_left]
    have hd : (u32be n ++ (payload ++ extra)).drop 4 = payload ++ extra := by
      rw [← u32be_length n, List.drop_left]
    have hpt : (payload ++ extra).take n = payload := by
      rw [← hlen, List.take_left]
    have hpd : (payload ++ extra).drop n = extra := by
      rw [← hlen, List.drop_left]
    unfold read_frame
    rw [hassoc, ht, hd, beVal_u32be n hn, hpt, hpd,
      if_pos (by rw [List.length_append, u32be_length]; omega),
      if_pos (by rw [List.length_append]; omega)]

/-- Witness for C10: a declared length of 3 with payload "123" succeeds with
the remainder untouched, at every hypothesis of the theorem. -/
theorem read_frame_no_max_length_witness :
    ((3 : Nat) < 2 ^ 32 ∧ ([49, 50, 51] : List Nat).length = 3 ∧
      read_frame (u32be 3 ++ [49, 50, 51] ++ [7]) = Except.ok (Json.num 123, [7])) ∧
    ((4 : Nat) ≤ ([0, 0, 0, 9, 1] : List Nat).length ∧
      read_frame [0, 0, 0, 9, 1] = Except.error ProtoError.io) ∧
    read_frame [0, 0, 0, 1, 49, 8] ≠ Except.error ProtoError.io := by
  refine ⟨⟨by decide, by decide, ?_⟩, ⟨by decide, ?_⟩, ?_⟩
  · have h := read_frame_no_max_length.2.2.2 3 (by decide) [49, 50, 51] [7] (by decide)
    rw [h]
    rfl
  · exact read_frame_no_max_length.2.2.1 [0, 0, 0, 9, 1] (by decide) (by decide)
  · exact read_frame_no_max_length.2.1 [0, 0, 0, 1, 49, 8] (by decide) (by decide)

/-! ### Protocol types (src/src/lib.rs) and their serde encodings -/

/-- Model of `RpcRequest` (src/src/lib.rs lines 8-14). -/
structure RpcRequest : Type where
  request_id : String
  func : String
  params : Json

/-- Model of the response variant type used by the client, the server and the
load generator.  `completed` and `error` mirror the `RpcResponse` enum declared
in src/src/lib.rs lines 16-32.  The `accepted` variant is matched by
client.rs line 49, produced via `resp_accepted` in server.rs line 79 and
consumed in loadgen.rs line 60, but its declaration is absent from lib.rs;
it is modelled from the spec: `Accepted { id }` acknowledges receipt only and
carries no result (spec section 3). -/
inductive RpcResponse : Type where
  | accepted (request_id : String) : RpcResponse
  | completed (request_id : String) (ok : Bool) (result : Option Json)
      (error : Option String) : RpcResponse
  | error (request_id : String) (ok : Bool) (error : String) : RpcResponse

/-- Exactly the `RpcResponse` enum as declared in src/src/lib.rs lines 16-32:
two variants only (`Completed`, `Error`), tagged by `"status"` with lowercase
names. -/
inductive LibRpcResponse : Type where
  | completed (request_id : String) (ok : Bool) (result : Option Json)
      (error : Option String) : LibRpcResponse
  | error (request_id : String) (ok : Bool) (error : String) : LibRpcResponse

/-- First value bound to a key in a JSON object, as serde field lookup. -/
def jLookup (kvs : List (String × Json)) (k : String) : Option Json :=
  match kvs with
  | [] => none
  | (k2, v) :: rest => if k2 = k then some v else jLookup rest k

/-- Decode a required string field. -/
def getString : Option Json → Option String
  | some (.str s) => some s
  | _ => none

/-- Decode a required bool field. -/
def getBool : Option Json → Option Bool
  | some (.bool b) => some b
  | _ => none

/-- Decode an `Option<String>` field: absent or null is `None`. -/
def getOptString : Option Json → Option (Option String)
  | none => some none
  | some .null => some none
  | some (.str s) => some (some s)
  | some _ => none

/-- Decode an `Option<serde_json::Value>` field: absent or null is `None`. -/
def getOptJson : Option Json → Option (Option Json)
  | none => some none
  | some .null => some none
  | some v => some (some v)

/-- Serialization of an `RpcResponse` to a `serde_json::Value`, as
`serde_json::to_value` produces it: an object keyed by the internal tag
`"status"` (lowercase variant name) plus the variant's fields, `None` options
skipped, keys in the sorted order of the `Value` object map. -/
def toJsonResponse : RpcResponse → Json
  | .accepted request_id =>
    Json.obj [("request_id", Json.str request_id), ("status", Json.str "accepted")]
  | .completed request_id ok result error =>
    Json.obj ((match error with
      | some e => [("error", Json.str e)]
      | none => []) ++
      [("ok", Json.bool ok), ("request_id", Json.str request_id)] ++
      (match result with
      | some r => [("result", r)]
      | none => []) ++
      [("status", Json.str "completed")])
  | .error request_id ok error =>
    Json.obj [("error", Json.str error), ("ok", Json.bool ok),
      ("request_id", Json.str request_id), ("status", Json.str "error")]

/-- Deserialization of an `RpcResponse` from a `serde_json::Value`, as
`serde_json::from_value` on the three-variant enum: dispatch on the `"status"`
tag, then read the variant's fields by name (unknown fields ignored). -/
def fromJsonResponse (j : Json) : Option RpcResponse :=
  match j with
  | .obj kvs =>
    match jLookup kvs "status" with
    | some (.str tag) =>
      if tag = "accepted" then
        match getString (jLookup kvs "request_id") with
        | some rid => some (.accepted rid)
        | none => none
      else if tag = "completed" then
        match getString (jLookup kvs "request_id"), getBool (jLookup kvs "ok"),
            getOptJson (jLookup kvs "result"), getOptString (jLookup kvs "error") with
        | some rid, some ok, some result, some error => some (.completed rid ok result error)
        | _, _, _, _ => none
      else if tag = "error" then
        match getString (jLookup kvs "request_id"), getBool (jLookup kvs "ok"),
            getString (jLookup kvs "error") with
        | some rid, some ok, some e => some (.error rid ok e)
        | _, _, _ => none
      else none
    | _ => none
  | _ => none

/-- Deserialization against the two-variant enum exactly as declared in
src/src/lib.rs: only the `"completed"` and `"error"` tags exist. -/
def libFromJson (j : Json) : Option LibRpcResponse :=
  match j with
  | .obj kvs =>
    match jLookup kvs "status" with
    | some (.str tag) =>
      if tag = "completed" then
        match getString (jLookup kvs "request_id"), getBool (jLookup kvs "ok"),
            getOptJson (jLookup kvs "result"), getOptString (jLookup kvs "error") with
        | some rid, some ok, some result, some error => some (.completed rid ok result error)
        | _, _, _, _ => none
      else if tag = "error" then
        match getString (jLookup kvs "request_id"), getBool (jLookup kvs "ok"),
            getString (jLookup kvs "error") with
        | some rid, some ok, some e => some (.error rid ok e)
        | _, _, _ => none
      else none
    | _ => none
  | _ => none

/-- Serialization of an `RpcRequest` to a `serde_json::Value` (sorted keys). -/
def toJsonRequest (r : RpcRequest) : Json :=
  Json.obj [("func", Json.str r.func), ("params", r.params),
    ("request_id", Json.str r.request_id)]

/-- Deserialization of an `RpcRequest` from a `serde_json::Value`:
`request_id` and `func` are required strings, `params` defaults to null
(`#[serde(default)]`). -/
def fromJsonRequest (j : Json) : Option RpcRequest :=
  match j with
  | .obj kvs =>
    match getString (jLookup kvs "request_id"), getString (jLookup kvs "func") with
    | some rid, some f => some ⟨rid, f, (jLookup kvs "params").getD Json.null⟩
    | _, _ => none
  | _ => none

/-- Model of `resp_ok` (src/src/lib.rs lines 64-71). -/
def resp_ok (request_id : String) (result : Json) : RpcResponse :=
  .completed request_id true (some result) none

/-- Model of `resp_err` (src/src/lib.rs lines 73-79): note it builds the
`Error` response shape, not a `Completed` with `ok:false`. -/
def resp_err (request_id : String) (msg : String) : RpcResponse :=
  .error request_id false msg

/-- The `resp_accepted` helper called by server.rs line 79.  Modelled from the
spec: the helper is imported from the shared library by server.rs line 13 but
is not declared in src/src/lib.rs; per spec section 3 it builds
`Accepted { id }`. -/
def resp_accepted (request_id : String) : RpcResponse :=
  .accepted request_id

/-- The id carried by a response (client.rs lines 48-52). -/
def respId : RpcResponse → String
  | .accepted rid => rid
  | .completed rid _ _ _ => rid
  | .error rid _ _ => rid

/-- Whether a response is terminal (Completed or Error), client.rs line 60. -/
def isTerminal : RpcResponse → Bool
  | .accepted _ => false
  | .completed _ _ _ _ => true
  | .error _ _ _ => true

/-! ### Client multiplexer (src/src/bin/client.rs) -/

/-- `HashMap::get` on the pending map (keys are unique request ids; the map is
modelled as an association list whose key list is `Nodup`). -/
def lookupTok (pending : List (String × Nat)) (rid : String) : Option Nat :=
  match pending with
  | [] => none
  | (k, t) :: rest => if k = rid then some t else lookupTok rest rid

/-- `HashMap::remove` on the pending map. -/
def removeTok (pending : List (String × Nat)) (rid : String) : List (String × Nat) :=
  match pending with
  | [] => []
  | (k, t) :: rest => if k = rid then rest else (k, t) :: removeTok rest rid

/-- One iteration of the receive loop body after a frame has been decoded
(client.rs lines 43-65): deserialize the `RpcResponse` (on failure, log and
continue), look the id up in the pending map, send to the registered waiter if
any, and remove the entry when the response is terminal.  Waiters are
identified by an abstract channel token (`Nat`); the second component lists
the deliveries performed. -/
def recvStep (pending : List (String × Nat)) (frame : Json) :
    List (String × Nat) × List (Nat × RpcResponse) :=
  match fromJsonResponse frame with
  | none => (pending, [])
  | some resp =>
    match lookupTok pending (respId resp) with
    | none => (pending, [])
    | some tok =>
      if isTerminal resp then (removeTok pending (respId resp), [(tok, resp)])
      else (pending, [(tok, resp)])

/-- The synthetic response broadcast on connection failure
(client.rs lines 36-38): note the empty `request_id`. -/
def connClosedResp : RpcResponse := RpcResponse.error "" false "connection closed"

theorem read_frame_len_lt (s : List Nat) (v : Json) (rest : List Nat)
    (h : read_frame s = Except.ok (v, rest)) : rest.length < s.length := by
  unfold read_frame at h
  split at h
  · split at h
    · split at h
      · injection h with hpair
        rw [Prod.mk.injEq] at hpair
        obtain ⟨-, h2⟩ := hpair
        rw [← h2, List.length_drop, List.length_drop]
        omega
      · exact Except.noConfusion h
    · exact Except.noConfusion h
  · exact Except.noConfusion h

/-- The background receive loop (client.rs lines 27-67) over a finite incoming
byte stream: decode one frame at a time and route it; when the frame decode
fails (truncation, I/O closure, malformed JSON frame), drain the entire
pending map, delivering the synthetic connection-closed error to every
still-registered waiter, and stop.  Returns the final pending map and the
ordered list of deliveries. -/
def recvLoop (pending : List (String × Nat)) (stream : List Nat) :
    List (String × Nat) × List (Nat × RpcResponse) :=
  match h : read_frame stream with
  | .error _ => ([], pending.map (fun p => (p.2, connClosedResp)))
  | .ok vr =>
    ((recvLoop (recvStep pending vr.1).1 vr.2).1,
      (recvStep pending vr.1).2 ++ (recvLoop (recvStep pending vr.1).1 vr.2).2)
termination_by stream.length
decreasing_by exact read_frame_len_lt stream vr.1 vr.2 (by rw [h])

/-- The wait loop of `RpcClient::call` (client.rs lines 91-100) applied to the
finite sequence of responses delivered to this call's channel before the
channel closes: Accepted responses are discarded; the first terminal response
decides the outcome; a closed channel with no terminal response is the
"connection closed" failure. -/
def waitResult : List RpcResponse → Except String Json
  | [] => .error "connection closed"
  | .accepted _ :: rest => waitResult rest
  | .completed _ ok result error :: _ =>
    if ok then .ok (result.getD Json.null) else .error (error.getD "server error")
  | .error _ _ e :: _ => .error e

/-- The responses delivered to the waiter identified by a channel token. -/
def deliveredTo (tok : Nat) (out : List (Nat × RpcResponse)) : List RpcResponse :=
  (out.filter (fun d => d.1 == tok)).map (fun d => d.2)

/-- A delivery sequence is well-formed when no non-final element is terminal:
zero or more Accepted deliveries, then at most one terminal one. -/
def okSeq (l : List RpcResponse) : Bool :=
  l.dropLast.all (fun r => !isTerminal r)

theorem recvLoop_drain (pending : List (String × Nat)) (stream : List Nat) (e : ProtoError)
    (h : read_frame stream = Except.error e) :
    recvLoop pending stream = ([], pending.map (fun p => (p.2, connClosedResp))) := by
  rw [recvLoop]
  split
  · rfl
  · next vr heq => rw [h] at heq; exact Except.noConfusion heq

theorem recvLoop_step (pending : List (String × Nat)) (stream : List Nat) (v : Json)
    (rest : List Nat) (h : read_frame stream = Except.ok (v, rest)) :
    recvLoop pending stream =
      ((recvLoop (recvStep pending v).1 rest).1,
        (recvStep pending v).2 ++ (recvLoop (recvStep pending v).1 rest).2) := by
  rw [recvLoop]
  split
  · next e heq => rw [h] at heq; exact Except.noConfusion heq
  · next vr heq =>
    rw [h] at heq
    injection heq with hvr
    rw [← hvr]

theorem lookupTok_mem (pending : List (String × Nat)) (rid : String) (tok : Nat)
    (h : lookupTok pending rid = some tok) : tok ∈ pending.map Prod.snd := by
  induction pending with
  | nil => exact Option.noConfusion h
  | cons p rest ih =>
    obtain ⟨k, t⟩ := p
    unfold lookupTok at h
    by_cases hk : k = rid
    · rw [if_pos hk] at h
      injection h with h
      simp [h]
    · rw [if_neg hk] at h
      simp [ih h]

theorem lookupTok_eq_none (pending : List (String × Nat)) (rid : String)
    (h : rid ∉ pending.map Prod.fst) : lookupTok pending rid = none := by
  induction pending with
  | nil => rfl
  | cons p rest ih =>
    obtain ⟨k, t⟩ := p
    simp only [List.map_cons, List.mem_cons, not_or] at h
    unfold lookupTok
    rw [if_neg (fun hk => h.1 hk.symm)]
    exact ih h.2

theorem removeTok_sublist (pending : List (String × Nat)) (rid : String) :
    (removeTok pending rid).Sublist pending := by
  induction pending with
  | nil => exact List.Sublist.refl []
  | cons p rest ih =>
    obtain ⟨k, t⟩ := p
    unfold removeTok
    by_cases hk : k = rid
    · rw [if_pos hk]
      exact List.sublist_cons_self (k, t) rest
    · rw [if_neg hk]
      exact List.Sublist.cons₂ (k, t) ih

theorem removeTok_map_nodup (pending : List (String × Nat)) (rid : String)
    (f : String × Nat → α) (h : (pending.map f).Nodup) :
    ((removeTok pending rid).map f).Nodup :=
  List.Nodup.sublist (List.Sublist.map f (removeTok_sublist pending rid)) h

theorem lookupTok_removeTok_self (pending : List (String × Nat)) (rid : String)
    (hkeys : (pending.map Prod.fst).Nodup) :
    lookupTok (removeTok pending rid) rid = none := by
  induction pending with
  | nil => rfl
  | cons p rest ih =>
    obtain ⟨k, t⟩ := p
    simp only [List.map_cons, List.nodup_cons] at hkeys
    unfold removeTok
    by_cases hk : k = rid
    · rw [if_pos hk]
      subst hk
      exact lookupTok_eq_none rest k hkeys.1
    · rw [if_neg hk]
      unfold lookupTok
      rw [if_neg hk]
      exact ih hkeys.2

theorem removeTok_not_mem_snd (pending : List (String × Nat)) (rid : String) (tok : Nat)
    (hl : lookupTok pending rid = some tok) (hnd : (pending.map Prod.snd).Nodup) :
    tok ∉ (removeTok pending rid).map Prod.snd := by
  induction pending with
  | nil => exact Option.noConfusion hl
  | cons p rest ih =>
    obtain ⟨k, t⟩ := p
    simp only [List.map_cons, List.nodup_cons] at hnd
    unfold lookupTok at hl
    unfold removeTok
    by_cases hk : k = rid
    · rw [if_pos hk] at hl
      injection hl with hl
      rw [if_pos hk, ← hl]
      exact hnd.1
    · rw [if_neg hk] at hl
      rw [if_neg hk]
      simp only [List.map_cons, List.mem_cons, not_or]
      refine ⟨?_, ih hl hnd.2⟩
      intro hts
      exact absurd (lookupTok_mem rest rid tok hl) (by rw [hts]; exact hnd.1)

/-- Case analysis of one receive-loop iteration. -/
theorem recvStep_cases (pending : List (String × Nat)) (frame : Json) :
    recvStep pending frame = (pending, []) ∨
    (∃ resp tok, fromJsonResponse frame = some resp ∧
      lookupTok pending (respId resp) = some tok ∧
      ((isTerminal resp = true ∧
        recvStep pending frame = (removeTok pending (respId resp), [(tok, resp)])) ∨
       (isTerminal resp = false ∧
        recvStep pending frame = (pending, [(tok, resp)])))) := by
  cases hfrom : fromJsonResponse frame with
  | none =>
    refine Or.inl ?_
    unfold recvStep
    simp only [hfrom]
  | some resp =>
    cases hlook : lookupTok pending (respId resp) with
    | none =>
      refine Or.inl ?_
      unfold recvStep
      simp only [hfrom, hlook]
    | some tok =>
      by_cases hT : isTerminal resp = true
      · refine Or.inr ⟨resp, tok, rfl, hlook, Or.inl ⟨hT, ?_⟩⟩
        unfold recvStep
        simp only [hfrom, hlook, if_pos hT]
      · have hF : isTerminal resp = false := by
          cases hiso : isTerminal resp
          · rfl
          · exact absurd hiso hT
        refine Or.inr ⟨resp, tok, rfl, hlook, Or.inr ⟨hF, ?_⟩⟩
        unfold recvStep
        simp only [hfrom, hlook, if_neg hT]

theorem deliveredTo_append (tok : Nat) (a b : List (Nat × RpcResponse)) :
    deliveredTo tok (a ++ b) = deliveredTo tok a ++ deliveredTo tok b := by
  simp [deliveredTo, List.filter_append]

theorem deliveredTo_single_eq (tok : Nat) (r : RpcResponse) :
    deliveredTo tok [(tok, r)] = [r] := by
  simp [deliveredTo]

theorem deliveredTo_single_ne (tok t : Nat) (r : RpcResponse) (h : t ≠ tok) :
    deliveredTo tok [(t, r)] = [] := by
  simp [deliveredTo, h]

theorem deliveredTo_drain_not_mem (pending : List (String × Nat)) (x : RpcResponse)
    (tok : Nat) (h : tok ∉ pending.map Prod.snd) :
    deliveredTo tok (pending.map (fun p => (p.2, x))) = [] := by
  induction pending with
  | nil => rfl
  | cons p rest ih =>
    obtain ⟨k, t⟩ := p
    simp only [List.map_cons, List.mem_cons, not_or] at h
    simp only [List.map_cons, deliveredTo, List.filter_cons]
    rw [if_neg (by simpa using fun ht => h.1 ht.symm)]
    exact ih h.2

theorem deliveredTo_drain_mem (pending : List (String × Nat)) (x : RpcResponse)
    (tok : Nat) (hmem : tok ∈ pending.map Prod.snd)
    (hnd : (pending.map Prod.snd).Nodup) :
    deliveredTo tok (pending.map (fun p => (p.2, x))) = [x] := by
  induction pending with
  | nil => simp at hmem
  | cons p rest ih =>
    obtain ⟨k, t⟩ := p
    simp only [List.map_cons, List.nodup_cons] at hnd
    simp only [List.map_cons, List.mem_cons] at hmem
    simp only [List.map_cons, deliveredTo, List.filter_cons]
    by_cases ht : t = tok
    · rw [if_pos (by simpa using ht)]
      subst ht
      simp only [List.map_cons]
      have hrest := deliveredTo_drain_not_mem rest x t hnd.1
      simp only [deliveredTo] at hrest
      rw [hrest]
    · rw [if_neg (by simpa using ht)]
      rcases hmem with hmem | hmem
      · exact absurd hmem.symm ht
      · exact ih hmem hnd.2

theorem recvLoop_step_snd (pending : List (String × Nat)) (stream : List Nat) (v : Json)
    (rest : List Nat) (h : read_frame stream = Except.ok (v, rest)) :
    (recvLoop pending stream).2 =
      (recvStep pending v).2 ++ (recvLoop (recvStep pending v).1 rest).2 := by
  rw [recvLoop_step pending stream v rest h]

theorem okSeq_cons_nonterminal (r : RpcResponse) (l : List RpcResponse)
    (h : isTerminal r = false) (hl : okSeq l = true) : okSeq (r :: l) = true := by
  cases l with
  | nil => rfl
  | cons a l =>
    unfold okSeq at hl ⊢
    rw [show List.dropLast (r :: a :: l) = r :: List.dropLast (a :: l) from rfl,
      List.all_cons, h, hl]
    rfl

theorem recvLoop_deliveries_dom : ∀ (n : Nat) (stream : List Nat), stream.length ≤ n →
    ∀ (pending : List (String × Nat)) (tok : Nat), tok ∉ pending.map Prod.snd →
    deliveredTo tok (recvLoop pending stream).2 = [] := by
  intro n
  induction n with
  | zero =>
    intro stream hlen pending tok htok
    have hs : stream = [] := List.length_eq_zero.mp (by omega)
    subst hs
    rw [recvLoop_drain pending [] ProtoError.io rfl]
    exact deliveredTo_drain_not_mem pending connClosedResp tok htok
  | succ m ih =>
    intro stream hlen pending tok htok
    cases hread : read_frame stream with
    | error e =>
      rw [recvLoop_drain pending stream e hread]
      exact deliveredTo_drain_not_mem pending connClosedResp tok htok
    | ok vr =>
      obtain ⟨v, rest⟩ := vr
      have hrl : rest.length ≤ m := by
        have := read_frame_len_lt stream v rest hread
        omega
      rw [recvLoop_step_snd pending stream v rest hread, deliveredTo_append]
      rcases recvStep_cases pending v with hcase | ⟨resp, tok₀, hfrom, hlook, hterm⟩
      · rw [hcase, ih rest hrl pending tok htok]
        rfl
      · have htok₀ : tok₀ ∈ pending.map Prod.snd := lookupTok_mem _ _ _ hlook
        have hne : tok₀ ≠ tok := fun hh => htok (hh ▸ htok₀)
        rcases hterm with ⟨hT, heq⟩ | ⟨hT, heq⟩
        · rw [heq, deliveredTo_single_ne tok tok₀ resp hne, List.nil_append]
          have hsub := (List.Sublist.map Prod.snd
            (removeTok_sublist pending (respId resp))).subset
          exact ih rest hrl _ tok (fun hmem => htok (hsub hmem))
        · rw [heq, deliveredTo_single_ne tok tok₀ resp hne, List.nil_append]
          exact ih rest hrl pending tok htok

theorem recvLoop_okSeq : ∀ (n : Nat) (stream : List Nat), stream.length ≤ n →
    ∀ (pending : List (String × Nat)),
    (pending.map Prod.fst).Nodup → (pending.map Prod.snd).Nodup →
    ∀ tok : Nat, okSeq (deliveredTo tok (recvLoop pending stream).2) = true := by
  intro n
  induction n with
  | zero =>
    intro stream hlen pending hkeys hsnd tok
    have hs : stream = [] := List.length_eq_zero.mp (by omega)
    subst hs
    rw [recvLoop_drain pending [] ProtoError.io rfl]
    by_cases hmem : tok ∈ pending.map Prod.snd
    · rw [deliveredTo_drain_mem pending connClosedResp tok hmem hsnd]
      rfl
    · rw [deliveredTo_drain_not_mem pending connClosedResp tok hmem]
      rfl
  | succ m ih =>
    intro stream hlen pending hkeys hsnd tok
    cases hread : read_frame stream with
    | error e =>
      rw [recvLoop_drain pending stream e hread]
      by_cases hmem : tok ∈ pending.map Prod.snd
      · rw [deliveredTo_drain_mem pending connClosedResp tok hmem hsnd]
        rfl
      · rw [deliveredTo_drain_not_mem pending connClosedResp tok hmem]
        rfl
    | ok vr =>
      obtain ⟨v, rest⟩ := vr
      have hrl : rest.length ≤ m := by
        have := read_frame_len_lt stream v rest hread
        omega
      rw [recvLoop_step_snd pending stream v rest hread, deliveredTo_append]
      rcases recvStep_cases pending v with hcase | ⟨resp, tok₀, hfrom, hlook, hterm⟩
      · rw [hcase]
        rw [show deliveredTo tok ((pending, ([] : List (Nat × RpcResponse))).2) = [] from rfl,
          List.nil_append]
        exact ih rest hrl pending hkeys hsnd tok
      · rcases hterm with ⟨hT, heq⟩ | ⟨hT, heq⟩
        · rw [heq]
          by_cases htk : tok₀ = tok
          · subst htk
            rw [show ((removeTok pending (respId resp), [(tok₀, resp)]).2) = [(tok₀, resp)]
                from rfl,
              show ((removeTok pending (respId resp), [(tok₀, resp)]).1) =
                removeTok pending (respId resp) from rfl,
              deliveredTo_single_eq,
              recvLoop_deliveries_dom m rest hrl (removeTok pending (respId resp)) tok₀
                (removeTok_not_mem_snd pending (respId resp) tok₀ hlook hsnd),
              List.append_nil]
            rfl
          · rw [show ((removeTok pending (respId resp), [(tok₀, resp)]).2) = [(tok₀, resp)]
                from rfl,
              show ((removeTok pending (respId resp), [(tok₀, resp)]).1) =
                removeTok pending (respId resp) from rfl,
              deliveredTo_single_ne tok tok₀ resp htk, List.nil_append]
            exact ih rest hrl _ (removeTok_map_nodup pending (respId resp) Prod.fst hkeys)
              (removeTok_map_nodup pending (respId resp) Prod.snd hsnd) tok
        · rw [heq]
          by_cases htk : tok₀ = tok
          · subst htk
            rw [show ((pending, [(tok₀, resp)]).2) = [(tok₀, resp)] from rfl,
              show ((pending, [(tok₀, resp)]).1) = pending from rfl,
              deliveredTo_single_eq, List.singleton_append]
            exact okSeq_cons_nonterminal resp _ hT (ih rest hrl pending hkeys hsnd tok₀)
          · rw [show ((pending, [(tok₀, resp)]).2) = [(tok₀, resp)] from rfl,
              show ((pending, [(tok₀, resp)]).1) = pending from rfl,
              deliveredTo_single_ne tok tok₀ resp htk, List.nil_append]
            exact ih rest hrl pending hkeys hsnd tok

/-! ### C3, C4, C5: client correlation claims -/

/-- C3: every Response the receive loop decodes is forwarded to exactly the
waiter registered in the pending map under the Response's id — a single
delivery to the looked-up channel and to no other — and a Response whose id
has no registered waiter is dropped, leaving the registry untouched.  The
routing depends only on `respId resp`, never on arrival position. -/
theorem recv_loop_routes_by_id :
    ∀ (pending : List (String × Nat)) (frame : Json) (resp : RpcResponse),
      fromJsonResponse frame = some resp →
      (∀ tok : Nat, lookupTok pending (respId resp) = some tok →
        (recvStep pending frame).2 = [(tok, resp)]) ∧
      (lookupTok pending (respId resp) = none →
        recvStep pending frame = (pending, [])) := by
  intro pending frame resp hfrom
  constructor
  · intro tok hlook
    unfold recvStep
    rw [hfrom]
    show (match lookupTok pending (respId resp) with
      | none => (pending, ([] : List (Nat × RpcResponse)))
      | some tok =>
        if isTerminal resp then (removeTok pending (respId resp), [(tok, resp)])
        else (pending, [(tok, resp)])).2 = [(tok, resp)]
    rw [hlook]
    show (if isTerminal resp then (removeTok pending (respId resp), [(tok, resp)])
      else (pending, [(tok, resp)])).2 = [(tok, resp)]
    by_cases hT : isTerminal resp = true
    · rw [if_pos hT]
    · rw [if_neg hT]
  · intro hlook
    unfold recvStep
    rw [hfrom]
    show (match lookupTok pending (respId resp) with
      | none => (pending, ([] : List (Nat × RpcResponse)))
      | some tok =>
        if isTerminal resp then (removeTok pending (respId resp), [(tok, resp)])
        else (pending, [(tok, resp)])) = (pending, [])
    rw [hlook]

/-- Witness for C3 at concrete inputs: a completed response for a registered
id is delivered to that id's waiter; an accepted response for an unregistered
id is dropped. -/
theorem recv_loop_routes_by_id_witness :
    fromJsonResponse (toJsonResponse (RpcResponse.completed "a" true (some (Json.num 1)) none)) =
      some (RpcResponse.completed "a" true (some (Json.num 1)) none) ∧
    lookupTok [("a", 0), ("b", 1)] "a" = some 0 ∧
    (recvStep [("a", 0), ("b", 1)]
      (toJsonResponse (RpcResponse.completed "a" true (some (Json.num 1)) none))).2 =
      [(0, RpcResponse.completed "a" true (some (Json.num 1)) none)] ∧
    fromJsonResponse (toJsonResponse (RpcResponse.accepted "zz")) =
      some (RpcResponse.accepted "zz") ∧
    lookupTok [("a", 0), ("b", 1)] "zz" = none ∧
    recvStep [("a", 0), ("b", 1)] (toJsonResponse (RpcResponse.accepted "zz")) =
      ([("a", 0), ("b", 1)], []) := by
  have h1 := (recv_loop_routes_by_id [("a", 0), ("b", 1)]
    (toJsonResponse (RpcResponse.completed "a" true (some (Json.num 1)) none))
    (RpcResponse.completed "a" true (some (Json.num 1)) none) (by rfl)).1 0 (by rfl)
  have h2 := (recv_loop_routes_by_id [("a", 0), ("b", 1)]
    (toJsonResponse (RpcResponse.accepted "zz"))
    (RpcResponse.accepted "zz") (by rfl)).2 (by rfl)
  exact ⟨rfl, rfl, h1, rfl, rfl, h2⟩

/-- C4: over any incoming byte stream, with distinct registered ids
(HashMap keys) and distinct waiter channels, the sequence of responses the
receive loop delivers to any one waiter has every non-final element
non-terminal: Accepted responses may occur zero or more times before the
terminal one, at most one terminal response is ever delivered, and nothing
follows it.  Moreover the loop removes the correlation entry at the first
terminal delivery, so the id immediately has no registered waiter. -/
theorem terminal_response_at_most_once :
    (∀ (pending : List (String × Nat)) (stream : List Nat),
      (pending.map Prod.fst).Nodup → (pending.map Prod.snd).Nodup →
      ∀ tok : Nat, okSeq (deliveredTo tok (recvLoop pending stream).2) = true) ∧
    (∀ (pending : List (String × Nat)) (frame : Json) (resp : RpcResponse) (tok : Nat),
      (pending.map Prod.fst).Nodup →
      fromJsonResponse frame = some resp → isTerminal resp = true →
      lookupTok pending (respId resp) = some tok →
      (recvStep pending frame).1 = removeTok pending (respId resp) ∧
      lookupTok (recvStep pending frame).1 (respId resp) = none) := by
  constructor
  · intro pending stream hkeys hsnd tok
    exact recvLoop_okSeq stream.length stream le_rfl pending hkeys hsnd tok
  · intro pending frame resp tok hkeys hfrom hT hlook
    have hfst : (recvStep pending frame).1 = removeTok pending (respId resp) := by
      unfold recvStep
      rw [hfrom]
      show (match lookupTok pending (respId resp) with
        | none => (pending, ([] : List (Nat × RpcResponse)))
        | some tok =>
          if isTerminal resp then (removeTok pending (respId resp), [(tok, resp)])
          else (pending, [(tok, resp)])).1 = removeTok pending (respId resp)
      rw [hlook]
      show (if isTerminal resp then (removeTok pending (respId resp), [(tok, resp)])
        else (pending, [(tok, resp)])).1 = removeTok pending (respId resp)
      rw [if_pos hT]
    exact ⟨hfst, by rw [hfst]; exact lookupTok_removeTok_self pending (respId resp) hkeys⟩

/-- Witness for C4: a concrete stream carrying an Accepted then a Completed for
id "a", then another Completed for "a" (which finds no waiter), against a
registry with two distinct ids and channels; plus the removal conjunct at a
concrete terminal response. -/
theorem terminal_response_at_most_once_witness :
    ((List.map Prod.fst [("a", 0), ("b", 1)]).Nodup ∧
      (List.map Prod.snd [("a", 0), ("b", 1)]).Nodup ∧
      okSeq (deliveredTo 0 (recvLoop [("a", 0), ("b", 1)]
        (write_frame (toJsonResponse (RpcResponse.accepted "a")) ++
         write_frame (toJsonResponse (RpcResponse.completed "a" true (some (Json.num 1)) none)) ++
         write_frame (toJsonResponse (RpcResponse.completed "a" true (some (Json.num 1)) none)))).2) =
        true) ∧
    ((recvStep [("a", 0), ("b", 1)]
        (toJsonResponse (RpcResponse.error "a" false "boom"))).1 = removeTok [("a", 0), ("b", 1)] "a" ∧
      lookupTok (recvStep [("a", 0), ("b", 1)]
        (toJsonResponse (RpcResponse.error "a" false "boom"))).1 "a" = none) := by
  refine ⟨⟨by decide, by decide, ?_⟩, ?_⟩
  · exact terminal_response_at_most_once.1 [("a", 0), ("b", 1)] _ (by decide) (by decide) 0
  · exact terminal_response_at_most_once.2 [("a", 0), ("b", 1)] _
      (RpcResponse.error "a" false "boom") 0 (by decide) (by rfl) (by rfl) (by rfl)

/-- C5 (amended): when the receive loop's frame decode fails for any reason,
a synthetic Error response with message "connection closed" — carrying an
EMPTY request id, not the waiter's id — is delivered to every still-registered
waiter, the registry is drained, and the loop terminates; with distinct
channels every registered waiter's wait loop then fails with the
connection-closed error rather than blocking. -/
theorem disconnect_broadcast :
    ∀ (pending : List (String × Nat)) (stream : List Nat) (e : ProtoError),
      read_frame stream = Except.error e →
      recvLoop pending stream = ([], pending.map (fun p => (p.2, connClosedResp))) ∧
      ((pending.map Prod.snd).Nodup → ∀ tok ∈ pending.map Prod.snd,
        waitResult (deliveredTo tok (recvLoop pending stream).2) =
          Except.error "connection closed") := by
  intro pending stream e h
  have hdrain := recvLoop_drain pending stream e h
  refine ⟨hdrain, ?_⟩
  intro hnd tok hmem
  rw [hdrain]
  rw [show (([] , pending.map (fun p => (p.2, connClosedResp))) :
      List (String × Nat) × List (Nat × RpcResponse)).2 =
    pending.map (fun p => (p.2, connClosedResp)) from rfl]
  rw [deliveredTo_drain_mem pending connClosedResp tok hmem hnd]
  rfl

/-- C5 counterexample: with a waiter registered under id "abc", a decode
failure delivers the synthetic error with request id "" — not "abc" as the
claim states. -/
theorem disconnect_error_carries_empty_id :
    (recvLoop [("abc", 0)] []).2 = [(0, connClosedResp)] ∧
    respId connClosedResp = "" ∧ ("" : String) ≠ "abc" := by
  have h := recvLoop_drain [("abc", 0)] [] ProtoError.io rfl
  refine ⟨by rw [h]; rfl, rfl, by decide⟩

/-- Witness for C5: with two outstanding waiters and a 1-byte (truncated)
stream, both waiters receive the synthetic error and their wait loops fail
with "connection closed". -/
theorem disconnect_broadcast_witness :
    read_frame [9] = Except.error ProtoError.io ∧
    recvLoop [("a", 0), ("b", 1)] [9] =
      ([], [(0, connClosedResp), (1, connClosedResp)]) ∧
    (List.map Prod.snd [("a", 0), ("b", 1)]).Nodup ∧
    (0 : Nat) ∈ List.map Prod.snd [("a", 0), ("b", 1)] ∧
    waitResult (deliveredTo 0 (recvLoop [("a", 0), ("b", 1)] [9]).2) =
      Except.error "connection closed" := by
  have h := disconnect_broadcast [("a", 0), ("b", 1)] [9] ProtoError.io (by rfl)
  exact ⟨by rfl, h.1, by decide, by decide, h.2 (by decide) 0 (by decide)⟩

/-! ### Server dispatcher (src/src/bin/server.rs) -/

/-- An apostrophe character, used to model the quotes in the server's
unknown-function error message. -/
def squote : String := String.mk [Char.ofNat 39]

/-- The four function names the dispatch match in server.rs lines 89-94
recognizes. -/
def knownFunc (f : String) : Bool :=
  f = "hash_compute" || f = "sort_array" || f = "matrix_multiply" || f = "compress_data"

/-- The result of running the dispatch match of server.rs lines 89-95 for a
request: a known function runs its handler (the concrete compute kernels are
external collaborators, supplied as the parameter `opImpl`); an unknown
function name yields the `unknown function` error.  -/
def dispatchResult (opImpl : String → Json → Except String Json)
    (func : String) (params : Json) : Except String Json :=
  if knownFunc func then opImpl func params
  else .error ("unknown function " ++ squote ++ func ++ squote)

/-- The terminal frame enqueued when a handler returns
(server.rs lines 98-101): `resp_ok` on success, `resp_err` on failure. -/
def completionResp (request_id : String) : Except String Json → RpcResponse
  | .ok v => resp_ok request_id v
  | .error e => resp_err request_id e

/-- State of one server connection: the unread input stream, the spawned
handlers that have not yet delivered their completion (with the result their
dispatch will produce), the ordered outgoing queue consumed by the single
writer task, and whether the read loop has ended. -/
structure ServerState : Type where
  stream : List Nat
  running : List (String × Except String Json)
  queue : List RpcResponse
  closed : Bool

/-- Small-step semantics of `handle_client` (server.rs lines 38-108).
`readRequest`: the read loop decodes a frame to a Request, immediately
enqueues `Accepted{id}` on the ordered outgoing queue, and spawns the handler.
`readFailFrame`: a frame-level decode failure (I/O, truncation, bad JSON) ends
the read loop with no response.  `readFailRequest`: a frame that is valid JSON
but not a Request is fatal for the connection — no response is sent and no
further frames are read.  `complete`: a spawned handler finishes (in any
order, even after the read loop closed) and enqueues its terminal frame. -/
inductive ServerStep (opImpl : String → Json → Except String Json) :
    ServerState → ServerState → Prop where
  | readRequest : ∀ (st : ServerState) (v : Json) (rest : List Nat) (req : RpcRequest),
      st.closed = false →
      read_frame st.stream = Except.ok (v, rest) →
      fromJsonRequest v = some req →
      ServerStep opImpl st
        ⟨rest, st.running ++ [(req.request_id, dispatchResult opImpl req.func req.params)],
          st.queue ++ [resp_accepted req.request_id], false⟩
  | readFailFrame : ∀ (st : ServerState) (e : ProtoError),
      st.closed = false →
      read_frame st.stream = Except.error e →
      ServerStep opImpl st ⟨st.stream, st.running, st.queue, true⟩
  | readFailRequest : ∀ (st : ServerState) (v : Json) (rest : List Nat),
      st.closed = false →
      read_frame st.stream = Except.ok (v, rest) →
      fromJsonRequest v = none →
      ServerStep opImpl st ⟨rest, st.running, st.queue, true⟩
  | complete : ∀ (st : ServerState) (pre post : List (String × Except String Json))
      (rid : String) (res : Except String Json),
      st.running = pre ++ (rid, res) :: post →
      ServerStep opImpl st ⟨st.stream, pre ++ post, st.queue ++ [completionResp rid res], st.closed⟩

/-- Reachability under the server step relation. -/
inductive ServerReach (opImpl : String → Json → Except String Json) :
    ServerState → ServerState → Prop where
  | refl : ∀ st : ServerState, ServerReach opImpl st st
  | tail : ∀ a b c : ServerState,
      ServerReach opImpl a b → ServerStep opImpl b c → ServerReach opImpl a c

/-- The initial state of a connection on a given incoming stream. -/
def initState (stream : List Nat) : ServerState := ⟨stream, [], [], false⟩

/-- The single writer task (server.rs lines 46-57) serializes queued frames to
the socket in FIFO enqueue order. -/
def writerBytes (queue : List RpcResponse) : List Nat :=
  match queue with
  | [] => []
  | r :: rest => write_frame (toJsonResponse r) ++ writerBytes rest

/-- The predicate "every terminal frame for an id is preceded in the queue by
an Accepted frame for the same id". -/
def ackOrdered (queue : List RpcResponse) : Prop :=
  ∀ (j : Nat) (hj : j < queue.length),
    isTerminal (queue.get ⟨j, hj⟩) = true →
    RpcResponse.accepted (respId (queue.get ⟨j, hj⟩)) ∈ queue.take j

theorem respId_completionResp (rid : String) (res : Except String Json) :
    respId (completionResp rid res) = rid := by
  cases res <;> rfl

theorem isTerminal_completionResp (rid : String) (res : Except String Json) :
    isTerminal (completionResp rid res) = true := by
  cases res <;> rfl

theorem ackOrdered_nil : ackOrdered [] := by
  intro j hj
  simp at hj

theorem ackOrdered_append_nonterminal (q : List RpcResponse) (r : RpcResponse)
    (hr : isTerminal r = false) (h : ackOrdered q) : ackOrdered (q ++ [r]) := by
  intro j hj hterm
  rw [List.get_eq_getElem] at hterm ⊢
  by_cases hjq : j < q.length
  · rw [List.getElem_append_left hjq] at hterm ⊢
    rw [List.take_append_of_le_length (Nat.le_of_lt hjq)]
    have := h j hjq
    rw [List.get_eq_getElem] at this
    exact this hterm
  · have hlen : (q ++ [r]).length = q.length + 1 := by simp
    have hje : j = q.length := by omega
    subst hje
    rw [List.getElem_append_right (Nat.le_refl q.length)] at hterm
    simp at hterm
    rw [hterm] at hr
    exact Bool.noConfusion hr

theorem ackOrdered_append_terminal (q : List RpcResponse) (r : RpcResponse)
    (hmem : RpcResponse.accepted (respId r) ∈ q) (h : ackOrdered q) :
    ackOrdered (q ++ [r]) := by
  intro j hj hterm
  rw [List.get_eq_getElem] at hterm ⊢
  by_cases hjq : j < q.length
  · rw [List.getElem_append_left hjq] at hterm ⊢
    rw [List.take_append_of_le_length (Nat.le_of_lt hjq)]
    have := h j hjq
    rw [List.get_eq_getElem] at this
    exact this hterm
  · have hlen : (q ++ [r]).length = q.length + 1 := by simp
    have hje : j = q.length := by omega
    subst hje
    rw [List.getElem_append_right (Nat.le_refl q.length)]
    simp only [Nat.sub_self, List.getElem_cons_zero]
    rw [List.take_left]
    exact hmem

/-- The per-connection invariant of the dispatcher: every terminal frame in
the outgoing queue is preceded by an Accepted frame for its id, and every
still-running handler already has its Accepted frame in the queue. -/
theorem serverReach_invariant (opImpl : String → Json → Except String Json)
    (stream : List Nat) (st : ServerState)
    (h : ServerReach opImpl (initState stream) st) :
    ackOrdered st.queue ∧
    (∀ p ∈ st.running, RpcResponse.accepted p.1 ∈ st.queue) := by
  induction h with
  | refl =>
    exact ⟨ackOrdered_nil, by intro p hp; simp [initState] at hp⟩
  | tail b c hab hbc ih =>
    obtain ⟨ihq, ihr⟩ := ih
    cases hbc with
    | readRequest v rest req hcl hread hfrom =>
      constructor
      · exact ackOrdered_append_nonterminal b.queue (resp_accepted req.request_id) rfl ihq
      · intro p hp
        rcases List.mem_append.mp hp with hp | hp
        · exact List.mem_append_left _ (ihr p hp)
        · simp only [List.mem_singleton] at hp
          rw [hp]
          exact List.mem_append_right _ (by simp [resp_accepted])
    | readFailFrame e hcl hread => exact ⟨ihq, ihr⟩
    | readFailRequest v rest hcl hread hfrom => exact ⟨ihq, ihr⟩
    | complete pre post rid res hrun =>
      constructor
      · refine ackOrdered_append_terminal b.queue (completionResp rid res) ?_ ihq
        rw [respId_completionResp]
        refine ihr (rid, res) ?_
        rw [hrun]
        exact List.mem_append_right _ (List.mem_cons_self _ _)
      · intro p hp
        apply List.mem_append_left
        apply ihr p
        rw [hrun]
        rcases List.mem_append.mp hp with hp | hp
        · exact List.mem_append_left _ hp
        · exact List.mem_append_right _ (List.mem_cons_of_mem _ hp)

/-! ### C8: Accepted precedes the terminal frame -/

/-- C8: in every state reachable by the dispatcher on any connection, every
terminal frame in the outgoing queue is preceded (strictly earlier in the
queue) by an Accepted frame carrying the same id — the dispatcher enqueues
Accepted before spawning the handler and completions only ever append — and
the single writer task emits queued frames in enqueue order (prefixes of the
queue are emitted as prefixes of the byte stream), so a terminal frame never
appears on the wire before its request's Accepted frame. -/
theorem accepted_precedes_terminal (opImpl : String → Json → Except String Json)
    (stream : List Nat) (st : ServerState)
    (h : ServerReach opImpl (initState stream) st) :
    (∀ (j : Nat) (hj : j < st.queue.length),
      isTerminal (st.queue.get ⟨j, hj⟩) = true →
      RpcResponse.accepted (respId (st.queue.get ⟨j, hj⟩)) ∈ st.queue.take j) ∧
    (∀ q₁ q₂ : List RpcResponse, writerBytes (q₁ ++ q₂) = writerBytes q₁ ++ writerBytes q₂) := by
  refine ⟨(serverReach_invariant opImpl stream st h).1, ?_⟩
  intro q₁ q₂
  induction q₁ with
  | nil => rfl
  | cons r q₁ ih =>
    show write_frame (toJsonResponse r) ++ writerBytes (q₁ ++ q₂) =
      (write_frame (toJsonResponse r) ++ writerBytes q₁) ++ writerBytes q₂
    rw [ih, List.append_assoc]

/-- A trivial handler implementation (external collaborator) for witnesses. -/
def opOk : String → Json → Except String Json := fun _ _ => Except.ok Json.null

/-- A handler implementation whose handlers always fail, for the C7
counterexample. -/
def opBoom : String → Json → Except String Json := fun _ _ => Except.error "boom"

/-- The witness request. -/
def reqW : RpcRequest := ⟨"r1", "sort_array", Json.null⟩

/-- The witness connection stream: one frame carrying `reqW`. -/
def streamW : List Nat := write_frame (toJsonRequest reqW)

/-- The witness final state: request accepted and completed. -/
def stW : ServerState :=
  ⟨[], [], [RpcResponse.accepted "r1", RpcResponse.completed "r1" true (some Json.null) none],
    false⟩

/-- Witness for C8: on a one-request connection, after the accept and the
completion, the terminal frame at queue position 1 is preceded by the Accepted
frame for its id. -/
theorem accepted_precedes_terminal_witness :
    ServerReach opOk (initState streamW) stW ∧
    isTerminal (stW.queue.get ⟨1, by decide⟩) = true ∧
    RpcResponse.accepted (respId (stW.queue.get ⟨1, by decide⟩)) ∈ stW.queue.take 1 := by
  have s1 : ServerStep opOk (initState streamW)
      ⟨[], [("r1", dispatchResult opOk "sort_array" Json.null)],
        [RpcResponse.accepted "r1"], false⟩ :=
    ServerStep.readRequest (initState streamW) (toJsonRequest reqW) [] reqW rfl (by rfl) (by rfl)
  have s2 : ServerStep opOk
      ⟨[], [("r1", dispatchResult opOk "sort_array" Json.null)],
        [RpcResponse.accepted "r1"], false⟩ stW :=
    ServerStep.complete _ [] [] "r1" (dispatchResult opOk "sort_array" Json.null) rfl
  have hreach : ServerReach opOk (initState streamW) stW :=
    ServerReach.tail _ _ _ (ServerReach.tail _ _ _ (ServerReach.refl _) s1) s2
  have h := accepted_precedes_terminal opOk streamW stW hreach
  exact ⟨hreach, rfl, h.1 1 (by decide) rfl⟩

/-! ### C6: fatal vs recoverable failures -/

/-- C6: on every connection, a frame that does not decode to a Request is
fatal — the server closes the connection (the only step consuming it sets
`closed`, enqueuing nothing; any concurrent step only completes an
already-running handler) and once closed no further frames are ever read —
whereas a Request naming an unknown function stays recoverable: the request is
acknowledged, its handler resolves to the unknown-function failure, a terminal
failure frame for that id is enqueued, and the connection stays open and can
accept a subsequent request. -/
theorem fatal_vs_recoverable :
    ∀ opImpl : String → Json → Except String Json,
    (∀ (st : ServerState) (v : Json) (rest : List Nat),
      st.closed = false → read_frame st.stream = Except.ok (v, rest) →
      fromJsonRequest v = none →
      ServerStep opImpl st ⟨rest, st.running, st.queue, true⟩ ∧
      (∀ st' : ServerState, ServerStep opImpl st st' →
        st'.queue = st.queue ∨
        ∃ rid res, (rid, res) ∈ st.running ∧
          st'.queue = st.queue ++ [completionResp rid res])) ∧
    (∀ st st' : ServerState, st.closed = true → ServerStep opImpl st st' →
      st'.closed = true ∧ st'.stream = st.stream) ∧
    (∀ (st : ServerState) (v : Json) (rest : List Nat) (req : RpcRequest),
      st.closed = false → read_frame st.stream = Except.ok (v, rest) →
      fromJsonRequest v = some req → knownFunc req.func = false →
      dispatchResult opImpl req.func req.params =
        Except.error ("unknown function " ++ squote ++ req.func ++ squote) ∧
      ServerStep opImpl st
        ⟨rest, st.running ++ [(req.request_id, dispatchResult opImpl req.func req.params)],
          st.queue ++ [resp_accepted req.request_id], false⟩) ∧
    (∀ (st : ServerState) (pre post : List (String × Except String Json))
        (rid msg : String),
      st.running = pre ++ (rid, Except.error msg) :: post →
      ServerStep opImpl st
        ⟨st.stream, pre ++ post, st.queue ++ [RpcResponse.error rid false msg], st.closed⟩ ∧
      isTerminal (RpcResponse.error rid false msg) = true) := by
  intro opImpl
  refine ⟨?_, ?_, ?_, ?_⟩
  · intro st v rest hcl hread hnone
    refine ⟨ServerStep.readFailRequest st v rest hcl hread hnone, ?_⟩
    intro st' hstep
    cases hstep with
    | readRequest v2 rest2 req hcl2 hread2 hfrom2 =>
      have hv : v2 = v := by
        have := hread2.symm.trans hread
        injection this with hpair
        exact (Prod.mk.injEq _ _ _ _ ▸ hpair).1
      rw [hv, hnone] at hfrom2
      exact Option.noConfusion hfrom2
    | readFailFrame e hcl2 hread2 => exact Or.inl rfl
    | readFailRequest v2 rest2 hcl2 hread2 hfrom2 => exact Or.inl rfl
    | complete pre post rid res hrun =>
      refine Or.inr ⟨rid, res, ?_, rfl⟩
      rw [hrun]
      exact List.mem_append_right _ (List.mem_cons_self _ _)
  · intro st st' hcl hstep
    cases hstep with
    | readRequest v rest req hcl2 hread hfrom => rw [hcl] at hcl2; exact Bool.noConfusion hcl2
    | readFailFrame e hcl2 hread => rw [hcl] at hcl2; exact Bool.noConfusion hcl2
    | readFailRequest v rest hcl2 hread hfrom => rw [hcl] at hcl2; exact Bool.noConfusion hcl2
    | complete pre post rid res hrun => exact ⟨hcl, rfl⟩
  · intro st v rest req hcl hread hfrom hku
    constructor
    · unfold dispatchResult
      rw [if_neg (fun hcon => by rw [hku] at hcon; exact Bool.noConfusion hcon)]
    · exact ServerStep.readRequest st v rest req hcl hread hfrom
  · intro st pre post rid msg hrun
    exact ⟨ServerStep.complete st pre post rid (Except.error msg) hrun, rfl⟩

/-- A frame payload that is valid JSON but not a Request (for the C6
witness). -/
def badDoc : Json := Json.num 3

/-- A Request naming an unknown function (for the C6 witness). -/
def reqUnknown : RpcRequest := ⟨"r2", "nope", Json.null⟩

/-- Witness for C6 at concrete inputs: a valid-JSON non-Request frame closes
the connection without a response; a closed connection's only remaining step
completes an old handler, leaving it closed and reading nothing; an
unknown-function Request is acknowledged, resolves to the unknown-function
error, its terminal failure frame is enqueued, and the connection stays open. -/
theorem fatal_vs_recoverable_witness :
    (fromJsonRequest badDoc = none ∧
      ServerStep opOk ⟨write_frame badDoc, [], [], false⟩ ⟨[], [], [], true⟩) ∧
    ((⟨[5], [], [RpcResponse.completed "q" true (some Json.null) none], true⟩ :
        ServerState).closed = true ∧
      (⟨[5], [], [RpcResponse.completed "q" true (some Json.null) none], true⟩ :
        ServerState).stream = [5]) ∧
    (knownFunc reqUnknown.func = false ∧
      dispatchResult opOk reqUnknown.func reqUnknown.params =
        Except.error ("unknown function " ++ squote ++ reqUnknown.func ++ squote) ∧
      ServerStep opOk ⟨write_frame (toJsonRequest reqUnknown), [], [], false⟩
        ⟨[], [("r2", dispatchResult opOk reqUnknown.func reqUnknown.params)],
          [RpcResponse.accepted "r2"], false⟩ ∧
      ServerStep opOk
        ⟨[], [("r2", dispatchResult opOk reqUnknown.func reqUnknown.params)],
          [RpcResponse.accepted "r2"], false⟩
        ⟨[], [], [RpcResponse.accepted "r2",
          RpcResponse.error "r2" false
            ("unknown function " ++ squote ++ "nope" ++ squote)], false⟩) := by
  have T := fatal_vs_recoverable opOk
  have h1 := T.1 ⟨write_frame badDoc, [], [], false⟩ badDoc [] rfl (by rfl) (by rfl)
  have hstep2 : ServerStep opOk ⟨[5], [("q", Except.ok Json.null)], [], true⟩
      ⟨[5], [], [RpcResponse.completed "q" true (some Json.null) none], true⟩ :=
    ServerStep.complete _ [] [] "q" (Except.ok Json.null) rfl
  have h2 := T.2.1 ⟨[5], [("q", Except.ok Json.null)], [], true⟩
    ⟨[5], [], [RpcResponse.completed "q" true (some Json.null) none], true⟩ rfl hstep2
  have h3 := T.2.2.1 ⟨write_frame (toJsonRequest reqUnknown), [], [], false⟩
    (toJsonRequest reqUnknown) [] reqUnknown rfl (by rfl) (by rfl) (by decide)
  have h4 := T.2.2.2
    ⟨[], [("r2", dispatchResult opOk reqUnknown.func reqUnknown.params)],
      [RpcResponse.accepted "r2"], false⟩ [] [] "r2"
    ("unknown function " ++ squote ++ "nope" ++ squote) (by rw [h3.1]; rfl)
  exact ⟨⟨rfl, h1.1⟩, h2, by decide, h3.1, h3.2, h4.1⟩

/-! ### C7: completion framing -/

/-- Constructor test: is a response the Completed shape? -/
def isCompletedShape : RpcResponse → Bool
  | .completed _ _ _ _ => true
  | _ => false

/-- C7 counterexample: with a handler that returns a failure, the frame the
server enqueues for the request is the Error shape (`resp_err`), not
`Completed{id, ok:false, error}` as the claim states. -/
theorem handler_failure_uses_error_shape :
    dispatchResult opBoom "sort_array" Json.null = Except.error "boom" ∧
    completionResp "r1" (dispatchResult opBoom "sort_array" Json.null) =
      RpcResponse.error "r1" false "boom" ∧
    isCompletedShape
      (completionResp "r1" (dispatchResult opBoom "sort_array" Json.null)) = false ∧
    ServerStep opBoom
      ⟨[], [("r1", dispatchResult opBoom "sort_array" Json.null)],
        [RpcResponse.accepted "r1"], false⟩
      ⟨[], [], [RpcResponse.accepted "r1", RpcResponse.error "r1" false "boom"], false⟩ := by
  refine ⟨rfl, rfl, rfl, ?_⟩
  exact ServerStep.complete _ [] [] "r1" (dispatchResult opBoom "sort_array" Json.null) rfl

/-- C7 (amended): for every request whose handler returns, the server enqueues
exactly one terminal frame for that request's id: `Completed{id, ok:true,
result}` when the handler succeeds, and `Error{id, ok:false, error}` (the
`resp_err` shape) when it fails — the Error shape is used for all
handler-level failures, not only pre-framing transport failures. -/
theorem completion_framing :
    ∀ (opImpl : String → Json → Except String Json) (st : ServerState)
      (pre post : List (String × Except String Json)) (rid : String)
      (res : Except String Json),
      st.running = pre ++ (rid, res) :: post →
      ServerStep opImpl st
        ⟨st.stream, pre ++ post, st.queue ++ [completionResp rid res], st.closed⟩ ∧
      (∀ v : Json, res = Except.ok v →
        completionResp rid res = RpcResponse.completed rid true (some v) none) ∧
      (∀ e : String, res = Except.error e →
        completionResp rid res = RpcResponse.error rid false e) ∧
      isTerminal (completionResp rid res) = true := by
  intro opImpl st pre post rid res hrun
  refine ⟨ServerStep.complete st pre post rid res hrun, ?_, ?_,
    isTerminal_completionResp rid res⟩
  · intro v hv
    rw [hv]
    rfl
  · intro e he
    rw [he]
    rfl

/-- Witness for C7: a succeeding and a failing handler completion at concrete
states. -/
theorem completion_framing_witness :
    (ServerStep opOk ⟨[], [("a", Except.ok (Json.num 4))], [], false⟩
      ⟨[], [], [RpcResponse.completed "a" true (some (Json.num 4)) none], false⟩ ∧
      completionResp "a" (Except.ok (Json.num 4)) =
        RpcResponse.completed "a" true (some (Json.num 4)) none) ∧
    (ServerStep opOk ⟨[], [("b", Except.error "bad")], [], false⟩
      ⟨[], [], [RpcResponse.error "b" false "bad"], false⟩ ∧
      completionResp "b" (Except.error "bad") = RpcResponse.error "b" false "bad") := by
  have h1 := completion_framing opOk ⟨[], [("a", Except.ok (Json.num 4))], [], false⟩
    [] [] "a" (Except.ok (Json.num 4)) rfl
  have h2 := completion_framing opOk ⟨[], [("b", Except.error "bad")], [], false⟩
    [] [] "b" (Except.error "bad") rfl
  exact ⟨⟨h1.1, h1.2.1 (Json.num 4) rfl⟩, ⟨h2.1, h2.2.2.1 "bad" rfl⟩⟩

/-! ### C9: the Response variant type -/

/-- The wire document of an Accepted response. -/
def acceptedDoc : Json :=
  Json.obj [("request_id", Json.str "r1"), ("status", Json.str "accepted")]

/-- Constructor tests for the two-variant library enum. -/
def isLibCompleted : LibRpcResponse → Bool
  | .completed _ _ _ _ => true
  | _ => false

def isLibError : LibRpcResponse → Bool
  | .error _ _ _ => true
  | _ => false

/-- C9 (code bug): the shared protocol library's `RpcResponse` enum
(src/src/lib.rs lines 16-32) declares only the Completed and Error shapes:
deserializing the `{"status":"accepted", ...}` document against it fails, and
every value of the library type is one of the two shapes — while the rest of
the repository (client.rs line 49, server.rs lines 13 and 79, loadgen.rs
line 60) uses the Accepted variant and the `resp_accepted` helper, which the
three-variant model (and the spec) provide. -/
theorem lib_response_lacks_accepted_variant :
    libFromJson acceptedDoc = none ∧
    fromJsonResponse acceptedDoc = some (RpcResponse.accepted "r1") ∧
    libFromJson (toJsonResponse (RpcResponse.completed "r1" true (some (Json.num 1)) none)) =
      some (LibRpcResponse.completed "r1" true (some (Json.num 1)) none) ∧
    libFromJson (toJsonResponse (RpcResponse.error "r1" false "boom")) =
      some (LibRpcResponse.error "r1" false "boom") ∧
    toJsonResponse (resp_accepted "r1") = acceptedDoc ∧
    (∀ r : LibRpcResponse, isLibCompleted r = true ∨ isLibError r = true) := by
  refine ⟨rfl, rfl, rfl, rfl, rfl, ?_⟩
  intro r
  cases r with
  | completed rid ok result error => exact Or.inl rfl
  | error rid ok e => exact Or.inr rfl
